import Mathlib

/-!
Verification of the sandbox container backend lifecycle subsystem of
nickytonline/openclaw: the backend selector (`sandboxBackendCommand` /
`applyBackend`), the Podman provisioning wizard (`runPodmanSetup` and its
host-detection helpers) and the registry reconciler
(`listSandboxRegistryItems`, `removeSandboxContainer`,
`removeSandboxBrowserContainer`).

The TypeScript sources are shallowly embedded: external collaborators
(shell execution, prompts, the agent-id normalizer, the config resolver)
become oracle functions carried in environment records; the sequential,
awaited side effects of a command become an explicit trace of `Event`s;
the mutable configuration object graph of `applyBackend` becomes an
explicit heap of numbered nodes so that the copy-on-write contract is a
real statement about object identity.
-/

namespace OpenClaw

/-! ## JSON-like value trees

Configuration values (what `loadConfig` returns and `writeConfigFile`
receives) are JSON-like trees: strings, `undefined`, objects with ordered
string-keyed fields, and arrays. -/

inductive Tree where
  | str (s : String)
  | undefined
  | obj (fields : List (String × Tree))
  | arr (elems : List Tree)

/-! ## Events

One observable event type for the whole subsystem: runtime log lines,
error lines, clack notes/intro/outro, the cancellation notice, an external
process invocation (binary plus argv), a browser-bridge stop, a
configuration write, and the process exit code request. -/

inductive Event where
  | log (s : String)
  | error (s : String)
  | note (body : String) (title : String)
  | cancelled
  | exec (bin : String) (args : List String)
  | bridgeStop (sessionKey : String)
  | writeConfig (t : Tree)
  | configUpdated
  | intro (s : String)
  | outro (s : String)
  | exitCode (n : Nat)

/-! ## Registry reconciler (sandbox-containers module)

Embedding of `listSandboxRegistryItems`, `removeSandboxContainer` and
`removeSandboxBrowserContainer`. Collaborators (`dockerContainerState`,
`execDocker`, `resolveSandboxAgentId`) are oracles in `ReconEnv`. -/

/-- Model of `String.trim` (`.trim()` in the source): strip leading and
trailing whitespace. (The core library's `String.trim` is built on partial
auxiliaries the kernel cannot evaluate, so the embedding uses this
list-of-characters definition.) -/
def strTrim (s : String) : String :=
  ⟨((s.data.dropWhile Char.isWhitespace).reverse.dropWhile Char.isWhitespace).reverse⟩

/-- A persisted registry entry: `{ containerName, image, sessionKey }` plus
whatever extra payload the concrete entry type carries (the TypeScript
function is generic over `TEntry extends` this shape). -/
structure RegEntry (α : Type) where
  containerName : String
  image : String
  sessionKey : String
  extra : α
  deriving DecidableEq

/-- A listed item: the entry (with `image` replaced by the actual live
image) extended with `running` and `imageMatch`. -/
structure RegItem (α : Type) extends RegEntry α where
  running : Bool
  imageMatch : Bool
  deriving DecidableEq

/-- Result of `dockerContainerState(containerName, command)`: whether the
container exists and whether it is running. -/
structure ContainerState where
  present : Bool
  running : Bool
  deriving DecidableEq

/-- Result of an `execDocker(args, { allowFailure, command })` call: either
a captured result (exit code and stdout) or a thrown error. -/
inductive ExecDockerOut where
  | res (code : Int) (stdout : String)
  | thrown
  deriving DecidableEq

/-- Oracles for the reconciler's collaborators. -/
structure ReconEnv where
  containerState : String → String → ContainerState
  execDocker : List String → String → ExecDockerOut
  resolveAgentId : String → Option String

/-- Argv of the image read-back: `["inspect", "-f", "{{.Config.Image}}", name]`. -/
def inspectImageArgs (containerName : String) : List String :=
  ["inspect", "-f", "\x7b\x7b.Config.Image\x7d\x7d", containerName]

/-- The actual image used for a listed entry: read back from the live
container only when it exists and the inspect succeeds with exit code 0
(then the trimmed stdout); otherwise the registry entry's persisted image. -/
def actualImageFor {α : Type} (env : ReconEnv) (command : String) (e : RegEntry α) : String :=
  let state := env.containerState e.containerName command
  if state.present then
    match env.execDocker (inspectImageArgs e.containerName) command with
    | .res code stdout => if code = 0 then strTrim stdout else e.image
    | .thrown => e.image
  else e.image

/-- `listSandboxRegistryItems`: map each registry entry to a live item.
`resolveEntryConfig agentId = (configuredImage, command)`. -/
def listSandboxRegistryItems {α : Type} (env : ReconEnv)
    (entries : List (RegEntry α))
    (resolveEntryConfig : Option String → String × String) : List (RegItem α) :=
  entries.map fun e =>
    let agentId := env.resolveAgentId e.sessionKey
    let cfg := resolveEntryConfig agentId
    let state := env.containerState e.containerName cfg.2
    let actualImage := actualImageFor env cfg.2 e
    ⟨{ e with image := actualImage }, state.running, actualImage == cfg.1⟩

/-- An in-process browser bridge: the container it serves and an opaque
handle for its server. -/
structure BrowserBridge where
  containerName : String
  server : Nat
  deriving DecidableEq

/-- The mutable state the removal paths touch: the plain container
registry, the browser container registry, and the process-wide
`BROWSER_BRIDGES` map (as an ordered association list keyed by session). -/
structure SandboxWorld where
  registry : List (RegEntry Unit)
  browserRegistry : List (RegEntry Unit)
  bridges : List (String × BrowserBridge)
  deriving DecidableEq

/-- Modelled from the spec: `removeRegistryEntry` / `removeBrowserRegistryEntry`
live in the registry persistence module (outside the staged sources); the
spec describes the registry as a read/write API keyed by container name
whose removal deletes the entry for that key. -/
def removeRegistryEntry (entries : List (RegEntry Unit)) (containerName : String) :
    List (RegEntry Unit) :=
  entries.filter fun e => e.containerName != containerName

/-- Argv of a forced container removal. -/
def rmArgs (containerName : String) : List String := ["rm", "-f", containerName]

/-- `removeSandboxContainer`: forced removal attempted on the docker
backend and then on the podman backend, both inside try/catch whose catch
ignores the failure (so the oracle outcome never influences control flow),
then the registry entry is deleted. The result is `Except`-valued to make
"no error propagates" a statement: every throw is caught. -/
def removeSandboxContainer (env : ReconEnv) (containerName : String) (w : SandboxWorld) :
    Except String (List Event × SandboxWorld) :=
  -- try { await execDocker(["rm","-f",name], docker) } catch { /- ignored -/ }
  let _ := env.execDocker (rmArgs containerName) "docker"
  -- try { await execDocker(["rm","-f",name], podman) } catch { /- ignored -/ }
  let _ := env.execDocker (rmArgs containerName) "podman"
  .ok ([Event.exec "docker" (rmArgs containerName), Event.exec "podman" (rmArgs containerName)],
       { w with registry := removeRegistryEntry w.registry containerName })

/-- The bridge-teardown loop of `removeSandboxBrowserContainer`: every
bridge whose `containerName` matches is stopped (stop failures are caught
with `.catch(() => undefined)`) and deleted from the map; the events are
the stops, in map iteration order. -/
def stopMatchingBridges (bridges : List (String × BrowserBridge)) (containerName : String) :
    List Event × List (String × BrowserBridge) :=
  ((bridges.filter fun p => p.2.containerName == containerName).map fun p => Event.bridgeStop p.1,
   bridges.filter fun p => p.2.containerName != containerName)

/-- `removeSandboxBrowserContainer`: both forced removals (failures
swallowed), browser-registry deletion, then the bridge-teardown loop. -/
def removeSandboxBrowserContainer (env : ReconEnv) (containerName : String) (w : SandboxWorld) :
    Except String (List Event × SandboxWorld) :=
  let _ := env.execDocker (rmArgs containerName) "docker"
  let _ := env.execDocker (rmArgs containerName) "podman"
  let stops := stopMatchingBridges w.bridges containerName
  .ok ([Event.exec "docker" (rmArgs containerName), Event.exec "podman" (rmArgs containerName)]
        ++ stops.1,
       { w with browserRegistry := removeRegistryEntry w.browserRegistry containerName,
                bridges := stops.2 })

/-- Deleting a key from a registry twice is the same as deleting it once. -/
theorem removeRegistryEntry_idem (l : List (RegEntry Unit)) (n : String) :
    removeRegistryEntry (removeRegistryEntry l n) n = removeRegistryEntry l n := by
  simp [removeRegistryEntry, List.filter_filter]

/-- Filtering out matching bridges twice is the same as once. -/
theorem bridgesErase_idem (l : List (String × BrowserBridge)) (n : String) :
    (l.filter fun p => p.2.containerName != n).filter (fun p => p.2.containerName != n)
      = l.filter fun p => p.2.containerName != n := by
  simp [List.filter_filter]

/-- After all matching bridges are erased, none matches. -/
theorem bridgesErase_no_match (l : List (String × BrowserBridge)) (n : String) :
    (l.filter fun p => p.2.containerName != n).filter (fun p => p.2.containerName == n) = [] := by
  simp only [List.filter_filter]
  apply List.filter_eq_nil_iff.mpr
  intro a _
  cases h : a.2.containerName == n <;> simp [bne, h]

/-- C2: for every oracle behaviour, container name and state, removal
(plain and browser) attempts forced removal on both backends, returns
`.ok` (every backend failure is swallowed), deletes the registry entry
regardless, and a second invocation on the already-removed name again
returns `.ok`, still attempts both backends, and leaves the state fixed. -/
theorem c2_remove_idempotent_both_backends (env : ReconEnv) (name : String) (w : SandboxWorld) :
    removeSandboxContainer env name w =
      .ok ([Event.exec "docker" (rmArgs name), Event.exec "podman" (rmArgs name)],
           { w with registry := removeRegistryEntry w.registry name })
    ∧ removeSandboxBrowserContainer env name w =
      .ok ([Event.exec "docker" (rmArgs name), Event.exec "podman" (rmArgs name)]
            ++ (stopMatchingBridges w.bridges name).1,
           { w with browserRegistry := removeRegistryEntry w.browserRegistry name,
                    bridges := (stopMatchingBridges w.bridges name).2 })
    ∧ removeSandboxContainer env name
        { w with registry := removeRegistryEntry w.registry name } =
      .ok ([Event.exec "docker" (rmArgs name), Event.exec "podman" (rmArgs name)],
           { w with registry := removeRegistryEntry w.registry name })
    ∧ removeSandboxBrowserContainer env name
        { w with browserRegistry := removeRegistryEntry w.browserRegistry name,
                 bridges := (stopMatchingBridges w.bridges name).2 } =
      .ok ([Event.exec "docker" (rmArgs name), Event.exec "podman" (rmArgs name)],
           { w with browserRegistry := removeRegistryEntry w.browserRegistry name,
                    bridges := (stopMatchingBridges w.bridges name).2 }) := by
  refine ⟨rfl, rfl, ?_, ?_⟩
  · simp [removeSandboxContainer, removeRegistryEntry_idem]
  · simp [removeSandboxBrowserContainer, stopMatchingBridges,
      removeRegistryEntry_idem, bridgesErase_idem, bridgesErase_no_match]

/-- C3: for every listed registry entry, `imageMatch` is exactly "output
image equals the configured image", the output image is the actual image
(read back from the live container only when it exists and the inspect
succeeds with exit code 0, otherwise the entry's persisted image),
`running` comes from the live state, and the keys are preserved. -/
theorem c3_imageMatch {α : Type} (env : ReconEnv) (entries : List (RegEntry α))
    (rc : Option String → String × String) (i : Nat)
    (h : i < entries.length) (h2 : i < (listSandboxRegistryItems env entries rc).length) :
    (((listSandboxRegistryItems env entries rc).get ⟨i, h2⟩).imageMatch = true ↔
      ((listSandboxRegistryItems env entries rc).get ⟨i, h2⟩).image =
        (rc (env.resolveAgentId (entries.get ⟨i, h⟩).sessionKey)).1)
    ∧ ((listSandboxRegistryItems env entries rc).get ⟨i, h2⟩).image =
        actualImageFor env (rc (env.resolveAgentId (entries.get ⟨i, h⟩).sessionKey)).2
          (entries.get ⟨i, h⟩)
    ∧ (∀ cmd : String, (env.containerState (entries.get ⟨i, h⟩).containerName cmd).present = false →
        actualImageFor env cmd (entries.get ⟨i, h⟩) = (entries.get ⟨i, h⟩).image)
    ∧ (∀ (cmd : String) (code : Int) (so : String),
        (env.containerState (entries.get ⟨i, h⟩).containerName cmd).present = true →
        env.execDocker (inspectImageArgs (entries.get ⟨i, h⟩).containerName) cmd = .res code so →
        actualImageFor env cmd (entries.get ⟨i, h⟩) =
          if code = 0 then strTrim so else (entries.get ⟨i, h⟩).image)
    ∧ (∀ cmd : String,
        env.execDocker (inspectImageArgs (entries.get ⟨i, h⟩).containerName) cmd = .thrown →
        actualImageFor env cmd (entries.get ⟨i, h⟩) = (entries.get ⟨i, h⟩).image)
    ∧ ((listSandboxRegistryItems env entries rc).get ⟨i, h2⟩).running =
        (env.containerState (entries.get ⟨i, h⟩).containerName
          (rc (env.resolveAgentId (entries.get ⟨i, h⟩).sessionKey)).2).running
    ∧ ((listSandboxRegistryItems env entries rc).get ⟨i, h2⟩).sessionKey =
        (entries.get ⟨i, h⟩).sessionKey
    ∧ ((listSandboxRegistryItems env entries rc).get ⟨i, h2⟩).containerName =
        (entries.get ⟨i, h⟩).containerName := by
  have hget : (listSandboxRegistryItems env entries rc).get ⟨i, h2⟩ =
      ⟨{ entries.get ⟨i, h⟩ with
            image := actualImageFor env
              (rc (env.resolveAgentId (entries.get ⟨i, h⟩).sessionKey)).2 (entries.get ⟨i, h⟩) },
        (env.containerState (entries.get ⟨i, h⟩).containerName
          (rc (env.resolveAgentId (entries.get ⟨i, h⟩).sessionKey)).2).running,
        actualImageFor env (rc (env.resolveAgentId (entries.get ⟨i, h⟩).sessionKey)).2
            (entries.get ⟨i, h⟩)
          == (rc (env.resolveAgentId (entries.get ⟨i, h⟩).sessionKey)).1⟩ := by
    simp only [listSandboxRegistryItems, List.get_eq_getElem, List.getElem_map]
  refine ⟨?_, ?_, ?_, ?_, ?_, ?_, ?_, ?_⟩
  · rw [hget]; exact beq_iff_eq
  · rw [hget]
  · intro cmd hp
    simp only [List.get_eq_getElem] at hp
    simp [actualImageFor, hp]
  · intro cmd code so hp hx
    simp only [List.get_eq_getElem] at hp hx
    simp [actualImageFor, hp, hx]
  · intro cmd hx
    simp only [List.get_eq_getElem] at hx
    cases hp : (env.containerState entries[i].containerName cmd).present <;>
      simp [actualImageFor, hp, hx]
  · rw [hget]
  · rw [hget]
  · rw [hget]

/-- Concrete reconciler oracle for the C3 witness: the container exists and
the inspect returns exit code 0 with padded stdout. -/
def c3Env : ReconEnv :=
  ⟨fun _ _ => ⟨true, true⟩, fun _ _ => .res 0 " repo/live:2 ", fun _ => none⟩

/-- Concrete registry for the C3 witness. -/
def c3Entries : List (RegEntry Unit) := [⟨"c1", "repo/old:1", "agent:main:x", ()⟩]

/-- Concrete entry-config resolver for the C3 witness. -/
def c3Rc : Option String → String × String := fun _ => ("repo/live:2", "docker")

/-- C3 witness: the theorem evaluated on a singleton registry. -/
theorem c3_imageMatch_witness :
    (((listSandboxRegistryItems c3Env c3Entries c3Rc).get ⟨0, by decide⟩).imageMatch = true ↔
      ((listSandboxRegistryItems c3Env c3Entries c3Rc).get ⟨0, by decide⟩).image =
        "repo/live:2") :=
  (c3_imageMatch c3Env c3Entries c3Rc 0 (by decide) (by decide)).1

/-- Reconciler oracle for the C10 counterexample (all probes fail). -/
def c10Env : ReconEnv := ⟨fun _ _ => ⟨false, false⟩, fun _ _ => .thrown, fun _ => none⟩

/-- World for the C10 counterexample: no browser-registry entry for "c1",
but the process-wide bridge map holds a bridge keyed to it. -/
def c10World : SandboxWorld := ⟨[], [], [("sess-1", ⟨"c1", 0⟩)]⟩

/-- C10 counterexample: on a container name with no corresponding browser
registry entry, remove still performs bridge teardown — the process-wide
bridge registry goes from nonempty to empty, so it is not left unchanged. -/
theorem c10_counterexample :
    (∀ e ∈ c10World.browserRegistry, e.containerName ≠ "c1")
    ∧ removeSandboxBrowserContainer c10Env "c1" c10World =
        .ok ([Event.exec "docker" (rmArgs "c1"), Event.exec "podman" (rmArgs "c1"),
              Event.bridgeStop "sess-1"], ⟨[], [], []⟩)
    ∧ c10World.bridges ≠ [] := by
  refine ⟨by simp [c10World], rfl, by simp [c10World]⟩

/-- C10 amended: browser-container remove on a name with no corresponding
registry entry and no bridge keyed to it completes without error, attempts
the two backend removals, and leaves the whole state (browser registry and
bridge registry) unchanged; bridge teardown is governed by the bridge
registry alone, never by the container registry. -/
theorem c10_amended (env : ReconEnv) (name : String) (w : SandboxWorld)
    (hreg : ∀ e ∈ w.browserRegistry, e.containerName ≠ name)
    (hbr : ∀ p ∈ w.bridges, p.2.containerName ≠ name) :
    removeSandboxBrowserContainer env name w =
      .ok ([Event.exec "docker" (rmArgs name), Event.exec "podman" (rmArgs name)], w) := by
  have h1 : removeRegistryEntry w.browserRegistry name = w.browserRegistry := by
    apply List.filter_eq_self.mpr
    intro a ha; simpa [bne_iff_ne] using hreg a ha
  have h2 : (w.bridges.filter fun p => p.2.containerName == name) = [] := by
    apply List.filter_eq_nil_iff.mpr
    intro a ha; simpa using hbr a ha
  have h3 : (w.bridges.filter fun p => p.2.containerName != name) = w.bridges := by
    apply List.filter_eq_self.mpr
    intro a ha; simpa [bne_iff_ne] using hbr a ha
  simp [removeSandboxBrowserContainer, stopMatchingBridges, h1, h2, h3]

/-- World for the C10 amended witness: an unrelated entry and bridge. -/
def c10WorldB : SandboxWorld := ⟨[], [⟨"other", "img", "s", ()⟩], [("s", ⟨"other", 3⟩)]⟩

/-- C10 amended witness: the amended theorem evaluated concretely. -/
theorem c10_amended_witness :
    removeSandboxBrowserContainer c10Env "c1" c10WorldB =
      .ok ([Event.exec "docker" (rmArgs "c1"), Event.exec "podman" (rmArgs "c1")], c10WorldB) :=
  c10_amended c10Env "c1" c10WorldB (by decide) (by decide)

/-! ## Backend selector: the configuration patch of `applyBackend`

Two embeddings. The value-level `applyBackendFn` below gives the tree that
`writeConfigFile` receives; the heap-level `applyBackendHeap` (further
down) tracks object identity for the copy-on-write contract. -/

/-- Property lookup in an ordered field list (JS object property read,
first match). -/
def lookupField {β : Type} : List (String × β) → String → Option β
  | [], _ => none
  | (k, v) :: rest, key => if k = key then some v else lookupField rest key

/-- Property assignment on an ordered field list: updates the property in
place when present, appends it otherwise (JS insertion order). -/
def setField {β : Type} : List (String × β) → String → β → List (String × β)
  | [], key, v => [(key, v)]
  | (k, w) :: rest, key, v => if k = key then (k, v) :: rest else (k, w) :: setField rest key v

/-- The id an agent-list element contributes to the find predicate:
`typeof e.id === "string" ? e.id : ""`. -/
def entryIdString (t : Tree) : String :=
  match t with
  | .obj fs => match lookupField fs "id" with | some (.str s) => s | _ => ""
  | _ => ""

/-- Value-level embedding of `applyBackend`'s configuration patch. The deep
`structuredClone` makes the patched object an independent copy, so at the
value level the clone is the input tree itself, and each TypeScript
property assignment (every level is re-assigned into its parent:
`nextConfig.agents = agents`, `agents.list = list`, `entry.sandbox =
sandbox`, `sandbox.backend = backend`) becomes a functional update,
composed bottom-up. A strict-mode property assignment or array-method call
on a value of the wrong shape throws; those branches yield `none`. -/
def applyBackendFn (normalize : String → String) (cfg : Tree) (agentId : Option String)
    (backend : String) : Option Tree :=
  match cfg with
  | .obj cfgFields =>
    match agentId with
    | some aid =>
      -- const agents = (nextConfig.agents ?? {}); nextConfig.agents = agents
      match (lookupField cfgFields "agents").getD (.obj []) with
      | .obj agentFields =>
        -- const list = (agents.list ?? []); agents.list = list
        match (lookupField agentFields "list").getD (.arr []) with
        | .arr es =>
          -- let entry = list.find(e => normalizeAgentId(typeof e.id === "string" ? e.id : "") === agentId)
          match es.findIdx? (fun e => normalize (entryIdString e) == aid) with
          | some i =>
            match es.get? i with
            | some (.obj entryFields) =>
              -- const sandbox = (entry.sandbox ?? {}); entry.sandbox = sandbox; sandbox.backend = backend
              match (lookupField entryFields "sandbox").getD (.obj []) with
              | .obj sandboxFields =>
                let sandbox2 := Tree.obj (setField sandboxFields "backend" (.str backend))
                let entry2 := Tree.obj (setField entryFields "sandbox" sandbox2)
                some (.obj (setField cfgFields "agents"
                  (.obj (setField agentFields "list" (.arr (es.set i entry2))))))
              | _ => none
            | _ => none
          | none =>
            -- entry = { id: agentId }; list.push(entry); then sandbox as above
            let entry2 := Tree.obj [("id", .str aid), ("sandbox", .obj [("backend", .str backend)])]
            some (.obj (setField cfgFields "agents"
              (.obj (setField agentFields "list" (.arr (es ++ [entry2]))))))
        | _ => none
      | _ => none
    | none =>
      -- const defaults = (agents.defaults ?? {}); const sandbox = (defaults.sandbox ?? {})
      match (lookupField cfgFields "agents").getD (.obj []) with
      | .obj agentFields =>
        match (lookupField agentFields "defaults").getD (.obj []) with
        | .obj defaultsFields =>
          match (lookupField defaultsFields "sandbox").getD (.obj []) with
          | .obj sandboxFields =>
            let sandbox2 := Tree.obj (setField sandboxFields "backend" (.str backend))
            let defaults2 := Tree.obj (setField defaultsFields "sandbox" sandbox2)
            some (.obj (setField cfgFields "agents"
              (.obj (setField agentFields "defaults" defaults2))))
          | _ => none
        | _ => none
      | _ => none
  | _ => none

/-- C8: per-agent apply for a normalized agent id absent from the agent
list yields exactly the input configuration with one new entry appended to
`agents.list` — the new entry's sandbox backend is the requested backend,
and every pre-existing entry (and its order) is kept verbatim. -/
theorem c8_per_agent_apply_absent (normalize : String → String)
    (cfgFields agentFields : List (String × Tree)) (es : List Tree)
    (aid backend : String)
    (hagents : lookupField cfgFields "agents" = some (.obj agentFields))
    (hlist : lookupField agentFields "list" = some (.arr es))
    (habsent : ∀ e ∈ es, normalize (entryIdString e) ≠ aid) :
    applyBackendFn normalize (.obj cfgFields) (some aid) backend =
      some (.obj (setField cfgFields "agents"
        (.obj (setField agentFields "list"
          (.arr (es ++ [.obj [("id", .str aid),
                              ("sandbox", .obj [("backend", .str backend)])]])))))) := by
  have hfind : es.findIdx? (fun e => normalize (entryIdString e) == aid) = none := by
    rw [List.findIdx?_eq_none_iff]
    intro e he
    simpa using habsent e he
  simp [applyBackendFn, hagents, hlist, hfind]

/-- Concrete configuration fields for the C8 witness: one existing agent
entry with id "main". -/
def c8CfgFields : List (String × Tree) :=
  [("agents", .obj [("list", .arr [.obj [("id", .str "main")]])])]

/-- C8 witness: the theorem evaluated on a one-entry agent list and the
absent agent id "work". -/
theorem c8_per_agent_apply_absent_witness :
    applyBackendFn id (.obj c8CfgFields) (some "work") "podman" =
      some (.obj [("agents", .obj [("list", .arr
        [.obj [("id", .str "main")],
         .obj [("id", .str "work"),
               ("sandbox", .obj [("backend", .str "podman")])]])])]) :=
  c8_per_agent_apply_absent id c8CfgFields [("list", .arr [.obj [("id", .str "main")]])]
    [.obj [("id", .str "main")]] "work" "podman" rfl rfl (by decide)

/-! ## Heap model for the copy-on-write contract of `applyBackend`

The configuration is a graph of JS objects. To state that `applyBackend`
never modifies the caller's configuration object (C9), objects get
addresses: `structuredClone` allocates a fresh copy and every property
write of the source lands in the fresh region, so every address of the
original region keeps its node. -/

/-- A heap value: a string scalar, `undefined`, or a reference to a node. -/
inductive JVal where
  | str (s : String)
  | undefined
  | ref (a : Nat)
  deriving DecidableEq

/-- A heap node: a JS object (ordered fields) or an array (elements). -/
inductive Node where
  | obj (fields : List (String × JVal))
  | arr (elems : List JVal)
  deriving DecidableEq

/-- The object heap: a node store and the allocation counter; fresh nodes
are allocated at increasing addresses starting at `fresh`. -/
structure Heap where
  mem : Nat → Option Node
  fresh : Nat

/-- Overwrite the node at an (existing) address. -/
def Heap.write (h : Heap) (a : Nat) (n : Node) : Heap :=
  ⟨fun x => if x = a then some n else h.mem x, h.fresh⟩

/-- Allocate a new node at the next fresh address. -/
def Heap.alloc (h : Heap) (n : Node) : Heap × Nat :=
  (⟨fun x => if x = h.fresh then some n else h.mem x, h.fresh + 1⟩, h.fresh)

/-- JS property read `v.k`: a reference to an object node yields the field
when present; arrays, strings and `undefined` yield `undefined`. -/
def getPropV (h : Heap) (v : JVal) (k : String) : JVal :=
  match v with
  | .ref a =>
    match h.mem a with
    | some (.obj fs) => (lookupField fs k).getD .undefined
    | _ => .undefined
  | _ => .undefined

/-- JS strict-mode property write `v.k = w`: succeeds only on a reference
to an object node (a write on a primitive throws in strict mode; expando
assignment on an array node is outside the modelled configuration shape
and is treated as an error as well). -/
def setPropV (h : Heap) (v : JVal) (k : String) (w : JVal) : Option Heap :=
  match v with
  | .ref a =>
    match h.mem a with
    | some (.obj fs) => some (h.write a (.obj (setField fs k w)))
    | _ => none
  | _ => none

/-- `x ?? dflt` where `dflt` is a fresh `{}` or `[]` literal. -/
def coalesce (h : Heap) (v : JVal) (dflt : Node) : Heap × JVal :=
  match v with
  | .undefined => ((h.alloc dflt).1, .ref (h.alloc dflt).2)
  | _ => (h, v)

/-- The elements of a value, when it references an array node (otherwise
an array-method call on it throws). -/
def arrElems (h : Heap) (v : JVal) : Option (List JVal) :=
  match v with
  | .ref a => match h.mem a with | some (.arr es) => some es | _ => none
  | _ => none

/-- `list.push(x)` on a reference to an array node. -/
def pushElem (h : Heap) (v : JVal) (x : JVal) : Option Heap :=
  match v with
  | .ref a =>
    match h.mem a with
    | some (.arr es) => some (h.write a (.arr (es ++ [x])))
    | _ => none
  | _ => none

mutual
/-- Fuel-bounded deep copy of a heap value (`structuredClone`): scalars are
copied, references are resolved and their nodes re-allocated fresh,
children first. A configuration object graph is a finite tree, so any fuel
at least its depth yields the full copy; the copy-on-write theorem needs
only the write footprint, which holds for every fuel. -/
def cloneVal (h : Heap) (fuel : Nat) (v : JVal) : Heap × JVal :=
  match fuel, v with
  | _, .str s => (h, .str s)
  | _, .undefined => (h, .undefined)
  | 0, .ref _ => (h, .undefined)
  | fuel + 1, .ref a =>
    match h.mem a with
    | none => (h, .undefined)
    | some (.obj fs) =>
      let p := cloneFields h fuel fs
      ((p.1.alloc (.obj p.2)).1, .ref (p.1.alloc (.obj p.2)).2)
    | some (.arr es) =>
      let p := cloneElems h fuel es
      ((p.1.alloc (.arr p.2)).1, .ref (p.1.alloc (.arr p.2)).2)
termination_by (fuel, 0)

/-- Deep copy of an object's field list, threading the heap. -/
def cloneFields (h : Heap) (fuel : Nat) : List (String × JVal) → Heap × List (String × JVal)
  | [] => (h, [])
  | (k, v) :: rest =>
    let p := cloneVal h fuel v
    let q := cloneFields p.1 fuel rest
    (q.1, (k, p.2) :: q.2)
termination_by fs => (fuel, fs.length + 1)

/-- Deep copy of an array's element list, threading the heap. -/
def cloneElems (h : Heap) (fuel : Nat) : List JVal → Heap × List JVal
  | [] => (h, [])
  | v :: rest =>
    let p := cloneVal h fuel v
    let q := cloneElems p.1 fuel rest
    (q.1, p.2 :: q.2)
termination_by es => (fuel, es.length + 1)
end

/-- Fuel-bounded read-back of a heap value as a configuration tree. -/
def readValF (h : Heap) : Nat → JVal → Tree
  | _, .str s => .str s
  | _, .undefined => .undefined
  | 0, .ref _ => .undefined
  | fuel + 1, .ref a =>
    match h.mem a with
    | none => .undefined
    | some (.obj fs) => .obj (fs.map fun kv => (kv.1, readValF h fuel kv.2))
    | some (.arr es) => .arr (es.map fun v => readValF h fuel v)
termination_by fuel _ => fuel

/-- The references a node stores. -/
def nodeRefs : Node → List Nat
  | .obj fs => fs.filterMap fun kv => match kv.2 with | .ref b => some b | _ => none
  | .arr es => es.filterMap fun v => match v with | .ref b => some b | _ => none

/-- A value's reference, if it is one, is at least `n`. -/
def ValHigh (n : Nat) : JVal → Prop
  | .ref b => n ≤ b
  | _ => True

/-- The copy-on-write invariant along a run of `applyBackendHeap`,
relative to the initial heap `h0`: the original region (below `h0.fresh`)
is untouched, the allocation counter never went down, and every node at or
above `h0.fresh` keeps its references at or above `h0.fresh` (the fresh
region never points back into the original region). -/
structure CowInv (h0 h : Heap) : Prop where
  agree : ∀ a, a < h0.fresh → h.mem a = h0.mem a
  le : h0.fresh ≤ h.fresh
  closed : ∀ a node, h0.fresh ≤ a → h.mem a = some node → ∀ b ∈ nodeRefs node, h0.fresh ≤ b

/-- The invariant holds initially when the initial heap stores nothing at
or above its own allocation counter. -/
theorem CowInv.base (h0 : Heap) (hwf : ∀ a, h0.fresh ≤ a → h0.mem a = none) :
    CowInv h0 h0 :=
  ⟨fun _ _ => rfl, le_refl _, fun a node ha hm => by rw [hwf a ha] at hm; cases hm⟩

/-- A field holding a reference contributes it to the object's refs. -/
theorem lookupField_ref_mem (fs : List (String × JVal)) (k : String) (b : Nat)
    (h : lookupField fs k = some (.ref b)) : b ∈ nodeRefs (.obj fs) := by
  induction fs with
  | nil => simp [lookupField] at h
  | cons kv rest ih =>
    obtain ⟨k1, v1⟩ := kv
    rw [lookupField] at h
    simp only [nodeRefs, List.filterMap_cons]
    by_cases hk : k1 = k
    · rw [if_pos hk] at h
      have heq : v1 = JVal.ref b := by injection h
      subst heq
      simp
    · rw [if_neg hk] at h
      have hr := ih h
      simp only [nodeRefs] at hr
      cases hm : (match v1 with | JVal.ref c => some c | _ => none) <;> simp [hm, hr]

/-- References of an updated field list: each comes from the old list or
from the written value. -/
theorem setField_refs_sub (fs : List (String × JVal)) (k : String) (w : JVal) :
    ∀ b ∈ nodeRefs (.obj (setField fs k w)), b ∈ nodeRefs (.obj fs) ∨ w = .ref b := by
  induction fs with
  | nil =>
    intro b hb
    simp only [setField, nodeRefs, List.filterMap_cons, List.filterMap_nil] at hb
    cases hw : w <;> simp [hw] at hb
    exact Or.inr (by rw [hb])
  | cons kv rest ih =>
    intro b hb
    obtain ⟨k1, v1⟩ := kv
    rw [setField] at hb
    by_cases hk : k1 = k
    · rw [if_pos hk] at hb
      simp only [nodeRefs, List.filterMap_cons] at hb ⊢
      cases hw : w with
      | ref c =>
        simp only [hw] at hb
        rcases List.mem_cons.mp hb with h1 | h1
        · exact Or.inr (by rw [h1])
        · cases hm : (match v1 with | JVal.ref c => some c | _ => none) <;>
            simp [hm, h1]
      | str s =>
        simp only [hw] at hb
        cases hm : (match v1 with | JVal.ref c => some c | _ => none) <;>
          simp [hm, hb]
      | undefined =>
        simp only [hw] at hb
        cases hm : (match v1 with | JVal.ref c => some c | _ => none) <;>
          simp [hm, hb]
    · rw [if_neg hk] at hb
      simp only [nodeRefs, List.filterMap_cons] at hb ⊢
      cases hm : (match v1 with | JVal.ref c => some c | _ => none) with
      | none =>
        simp only [hm] at hb ⊢
        rcases ih b (by simpa [nodeRefs] using hb) with h1 | h1
        · exact Or.inl (by simpa [nodeRefs] using h1)
        · exact Or.inr h1
      | some c =>
        simp only [hm] at hb ⊢
        rcases List.mem_cons.mp hb with h1 | h1
        · exact Or.inl (List.mem_cons.mpr (Or.inl h1))
        · rcases ih b (by simpa [nodeRefs] using h1) with h2 | h2
          · exact Or.inl (List.mem_cons.mpr (Or.inr (by simpa [nodeRefs] using h2)))
          · exact Or.inr h2

/-- An object whose field values are all high has only high refs. -/
theorem nodeRefs_obj_high (n : Nat) (fs : List (String × JVal))
    (hf : ∀ kv ∈ fs, ValHigh n kv.2) : ∀ b ∈ nodeRefs (.obj fs), n ≤ b := by
  intro b hb
  rcases List.mem_filterMap.mp hb with ⟨kv, hkv, hm⟩
  have := hf kv hkv
  cases hv : kv.2 with
  | ref c => rw [hv] at hm; obtain rfl : c = b := by injection hm
             rw [hv] at this; exact this
  | str s => rw [hv] at hm; cases hm
  | undefined => rw [hv] at hm; cases hm

/-- An array whose elements are all high has only high refs. -/
theorem nodeRefs_arr_high (n : Nat) (es : List JVal)
    (hf : ∀ v ∈ es, ValHigh n v) : ∀ b ∈ nodeRefs (.arr es), n ≤ b := by
  intro b hb
  rcases List.mem_filterMap.mp hb with ⟨v, hv, hm⟩
  have := hf v hv
  cases hw : v with
  | ref c => rw [hw] at hm; obtain rfl : c = b := by injection hm
             rw [hw] at this; exact this
  | str s => rw [hw] at hm; cases hm
  | undefined => rw [hw] at hm; cases hm

/-- Allocation preserves the invariant (the new node's refs must be high)
and returns a high address. -/
theorem alloc_inv (h0 h : Heap) (n : Node) (inv : CowInv h0 h)
    (hn : ∀ b ∈ nodeRefs n, h0.fresh ≤ b) :
    CowInv h0 (h.alloc n).1 ∧ h0.fresh ≤ (h.alloc n).2 := by
  refine ⟨⟨?_, ?_, ?_⟩, inv.le⟩
  · intro a ha
    have hle := inv.le
    have hne : a ≠ h.fresh := by omega
    simp [Heap.alloc, hne, inv.agree a ha]
  · have hle := inv.le
    simp [Heap.alloc]
    omega
  · intro a node ha hm b hb
    by_cases hEq : a = h.fresh
    · subst hEq
      simp [Heap.alloc] at hm
      exact hn b (hm ▸ hb)
    · simp [Heap.alloc, hEq] at hm
      exact inv.closed a node ha hm b hb

/-- Overwriting a high address with a node of high refs preserves the
invariant. -/
theorem write_inv (h0 h : Heap) (a : Nat) (n : Node) (inv : CowInv h0 h)
    (ha : h0.fresh ≤ a) (hn : ∀ b ∈ nodeRefs n, h0.fresh ≤ b) :
    CowInv h0 (h.write a n) := by
  refine ⟨?_, inv.le, ?_⟩
  · intro x hx
    have hne : x ≠ a := by omega
    simp [Heap.write, hne, inv.agree x hx]
  · intro x node hxf hm b hb
    by_cases hEq : x = a
    · subst hEq
      simp [Heap.write] at hm
      exact hn b (hm ▸ hb)
    · simp [Heap.write, hEq] at hm
      exact inv.closed x node hxf hm b hb

/-- A property read through a high value yields a high value. -/
theorem getPropV_high (h0 h : Heap) (inv : CowInv h0 h) (v : JVal) (k : String)
    (hv : ValHigh h0.fresh v) : ValHigh h0.fresh (getPropV h v k) := by
  cases v with
  | str s => trivial
  | undefined => trivial
  | ref a =>
    cases hm : h.mem a with
    | none => simp [getPropV, hm, ValHigh]
    | some node =>
      cases node with
      | arr es => simp [getPropV, hm, ValHigh]
      | obj fs =>
        simp only [getPropV, hm]
        cases hl : lookupField fs k with
        | none => simp [ValHigh]
        | some w =>
          cases hw : w with
          | str s => simp [ValHigh]
          | undefined => simp [ValHigh]
          | ref b =>
            simp only [Option.getD_some]
            rw [hw] at hl
            exact inv.closed a (.obj fs) hv hm b (lookupField_ref_mem fs k b hl)

/-- Nullish coalescing with an allocation-free default preserves the
invariant and yields a high value. -/
theorem coalesce_inv (h0 h : Heap) (v : JVal) (dflt : Node) (inv : CowInv h0 h)
    (hv : ValHigh h0.fresh v) (hd : nodeRefs dflt = []) :
    CowInv h0 (coalesce h v dflt).1 ∧ ValHigh h0.fresh (coalesce h v dflt).2 := by
  cases v with
  | str s => exact ⟨inv, trivial⟩
  | ref a => exact ⟨inv, hv⟩
  | undefined =>
    have h1 := alloc_inv h0 h dflt inv (by simp [hd])
    exact ⟨h1.1, h1.2⟩

/-- A successful strict-mode property write on a high value with a high
written value preserves the invariant. -/
theorem setPropV_inv (h0 h : Heap) (v w : JVal) (k : String) (h' : Heap) (inv : CowInv h0 h)
    (hv : ValHigh h0.fresh v) (hw : ValHigh h0.fresh w)
    (hs : setPropV h v k w = some h') : CowInv h0 h' := by
  cases v with
  | str s => simp [setPropV] at hs
  | undefined => simp [setPropV] at hs
  | ref a =>
    rw [setPropV] at hs
    cases hm : h.mem a with
    | none => rw [hm] at hs; cases hs
    | some node =>
      cases node with
      | arr es => rw [hm] at hs; cases hs
      | obj fs =>
        rw [hm] at hs
        have heq : h' = h.write a (.obj (setField fs k w)) := by
          injection hs with hs2; exact hs2.symm
        subst heq
        refine write_inv h0 h a _ inv hv ?_
        intro b hb
        rcases setField_refs_sub fs k w b hb with h1 | h1
        · exact inv.closed a (.obj fs) hv hm b h1
        · rw [h1] at hw; exact hw

/-- Elements read out of a high array value are high. -/
theorem arrElems_high (h0 h : Heap) (inv : CowInv h0 h) (v : JVal) (es : List JVal)
    (hv : ValHigh h0.fresh v) (he : arrElems h v = some es) :
    ∀ e ∈ es, ValHigh h0.fresh e := by
  intro e hee
  cases v with
  | str s => simp [arrElems] at he
  | undefined => simp [arrElems] at he
  | ref a =>
    rw [arrElems] at he
    cases hm : h.mem a with
    | none => rw [hm] at he; cases he
    | some node =>
      cases node with
      | obj fs => rw [hm] at he; cases he
      | arr es2 =>
        rw [hm] at he
        obtain rfl : es2 = es := by injection he
        cases hw : e with
        | str s => trivial
        | undefined => trivial
        | ref b =>
          refine inv.closed a (.arr es2) hv hm b ?_
          exact List.mem_filterMap.mpr ⟨e, hee, by rw [hw]⟩

/-- A successful push of a high value onto a high array value preserves
the invariant. -/
theorem pushElem_inv (h0 h : Heap) (v x : JVal) (h' : Heap) (inv : CowInv h0 h)
    (hv : ValHigh h0.fresh v) (hx : ValHigh h0.fresh x)
    (hs : pushElem h v x = some h') : CowInv h0 h' := by
  cases v with
  | str s => simp [pushElem] at hs
  | undefined => simp [pushElem] at hs
  | ref a =>
    rw [pushElem] at hs
    cases hm : h.mem a with
    | none => rw [hm] at hs; cases hs
    | some node =>
      cases node with
      | obj fs => rw [hm] at hs; cases hs
      | arr es =>
        rw [hm] at hs
        have heq : h' = h.write a (.arr (es ++ [x])) := by
          injection hs with hs2; exact hs2.symm
        subst heq
        refine write_inv h0 h a _ inv hv ?_
        intro b hb
        simp only [nodeRefs, List.filterMap_append] at hb
        rcases List.mem_append.mp hb with h1 | h1
        · exact inv.closed a (.arr es) hv hm b h1
        · cases hxv : x with
          | ref c =>
            simp [hxv] at h1
            rw [hxv] at hx
            exact h1 ▸ hx
          | str s => simp [hxv] at h1
          | undefined => simp [hxv] at h1

/-- The deep copy preserves the invariant and returns a high value, for
every fuel. -/
theorem cloneVal_inv (h0 : Heap) : ∀ (fuel : Nat) (v : JVal) (h : Heap), CowInv h0 h →
    CowInv h0 (cloneVal h fuel v).1 ∧ ValHigh h0.fresh (cloneVal h fuel v).2 := by
  intro fuel
  induction fuel with
  | zero =>
    intro v h inv
    cases v <;> simp only [cloneVal] <;> exact ⟨inv, trivial⟩
  | succ fuel ih =>
    have hF : ∀ (fs : List (String × JVal)) (h : Heap), CowInv h0 h →
        CowInv h0 (cloneFields h fuel fs).1 ∧
          ∀ kv ∈ (cloneFields h fuel fs).2, ValHigh h0.fresh kv.2 := by
      intro fs
      induction fs with
      | nil =>
        intro h inv
        simp only [cloneFields]
        exact ⟨inv, by intro kv hkv; cases hkv⟩
      | cons kv rest ihf =>
        intro h inv
        obtain ⟨k1, v1⟩ := kv
        simp only [cloneFields]
        have h1 := ih v1 h inv
        have h2 := ihf (cloneVal h fuel v1).1 h1.1
        refine ⟨h2.1, ?_⟩
        intro kv2 hkv2
        rcases List.mem_cons.mp hkv2 with hEq | hmem
        · rw [hEq]; exact h1.2
        · exact h2.2 kv2 hmem
    have hE : ∀ (es : List JVal) (h : Heap), CowInv h0 h →
        CowInv h0 (cloneElems h fuel es).1 ∧
          ∀ v ∈ (cloneElems h fuel es).2, ValHigh h0.fresh v := by
      intro es
      induction es with
      | nil =>
        intro h inv
        simp only [cloneElems]
        exact ⟨inv, by intro v hv; cases hv⟩
      | cons v rest ihe =>
        intro h inv
        simp only [cloneElems]
        have h1 := ih v h inv
        have h2 := ihe (cloneVal h fuel v).1 h1.1
        refine ⟨h2.1, ?_⟩
        intro v2 hv2
        rcases List.mem_cons.mp hv2 with hEq | hmem
        · rw [hEq]; exact h1.2
        · exact h2.2 v2 hmem
    intro v h inv
    cases v with
    | str s => simp only [cloneVal]; exact ⟨inv, trivial⟩
    | undefined => simp only [cloneVal]; exact ⟨inv, trivial⟩
    | ref a =>
      cases hm : h.mem a with
      | none => simp only [cloneVal, hm]; exact ⟨inv, trivial⟩
      | some node =>
        cases node with
        | obj fs =>
          simp only [cloneVal, hm]
          have h1 := hF fs h inv
          have h2 := alloc_inv h0 (cloneFields h fuel fs).1 (.obj (cloneFields h fuel fs).2)
            h1.1 (nodeRefs_obj_high h0.fresh _ h1.2)
          exact ⟨h2.1, h2.2⟩
        | arr es =>
          simp only [cloneVal, hm]
          have h1 := hE es h inv
          have h2 := alloc_inv h0 (cloneElems h fuel es).1 (.arr (cloneElems h fuel es).2)
            h1.1 (nodeRefs_arr_high h0.fresh _ h1.2)
          exact ⟨h2.1, h2.2⟩

/-- `typeof e.id === "string" ? e.id : ""`, read through the heap. -/
def heapEntryIdString (h : Heap) (v : JVal) : String :=
  match getPropV h v "id" with | .str s => s | _ => ""

/-- The trailing writes shared by the found-entry and pushed-entry paths:
`const sandbox = (entry.sandbox ?? {}); entry.sandbox = sandbox;
sandbox.backend = backend`, returning the patched clone root on success. -/
def sandboxWrite (h : Heap) (vEntry : JVal) (backend : String) (vNext : JVal) :
    Heap × Option JVal :=
  let p := coalesce h (getPropV h vEntry "sandbox") (.obj [])
  match setPropV p.1 vEntry "sandbox" p.2 with
  | none => (p.1, none)
  | some h2 =>
    match setPropV h2 p.2 "backend" (.str backend) with
    | none => (h2, none)
    | some h3 => (h3, some vNext)

/-- Heap-level embedding of `applyBackend`: `structuredClone(cfg)` as the
fuel-bounded deep copy (fuel `h0.fresh` bounds the depth of any acyclic
well-formed heap), then the source's property reads, nullish-coalescing
defaults, re-assignments into the parent, the agent-list find and the
push, in source order. Returns the heap after all performed writes and,
unless a strict-mode type error was thrown along the way, the value handed
to `writeConfigFile` (the clone's root). -/
def applyBackendHeap (normalize : String → String) (h0 : Heap) (cfgVal : JVal)
    (agentId : Option String) (backend : String) : Heap × Option JVal :=
  let c := cloneVal h0 h0.fresh cfgVal
  match agentId with
  | some aid =>
    -- const agents = (nextConfig.agents ?? {}); nextConfig.agents = agents
    let p1 := coalesce c.1 (getPropV c.1 c.2 "agents") (.obj [])
    match setPropV p1.1 c.2 "agents" p1.2 with
    | none => (p1.1, none)
    | some h3 =>
      -- const list = (agents.list ?? []); agents.list = list
      let p2 := coalesce h3 (getPropV h3 p1.2 "list") (.arr [])
      match setPropV p2.1 p1.2 "list" p2.2 with
      | none => (p2.1, none)
      | some h5 =>
        -- let entry = list.find(e => normalizeAgentId(...) === agentId)
        match arrElems h5 p2.2 with
        | none => (h5, none)
        | some es =>
          match es.find? (fun e => normalize (heapEntryIdString h5 e) == aid) with
          | some vEntry => sandboxWrite h5 vEntry backend c.2
          | none =>
            -- entry = { id: agentId }; list.push(entry)
            let q := h5.alloc (.obj [("id", .str aid)])
            match pushElem q.1 p2.2 (.ref q.2) with
            | none => (q.1, none)
            | some h7 => sandboxWrite h7 (.ref q.2) backend c.2
  | none =>
    -- global default: agents.defaults.sandbox.backend
    let p1 := coalesce c.1 (getPropV c.1 c.2 "agents") (.obj [])
    match setPropV p1.1 c.2 "agents" p1.2 with
    | none => (p1.1, none)
    | some h3 =>
      let p2 := coalesce h3 (getPropV h3 p1.2 "defaults") (.obj [])
      match setPropV p2.1 p1.2 "defaults" p2.2 with
      | none => (p2.1, none)
      | some h5 =>
        let p3 := coalesce h5 (getPropV h5 p2.2 "sandbox") (.obj [])
        match setPropV p3.1 p2.2 "sandbox" p3.2 with
        | none => (p3.1, none)
        | some h7 =>
          match setPropV h7 p3.2 "backend" (.str backend) with
          | none => (h7, none)
          | some h8 => (h8, some c.2)

/-- The trailing sandbox writes preserve the invariant; a returned value
is the passed clone root. -/
theorem sandboxWrite_spec (h0 h : Heap) (vEntry vNext : JVal) (backend : String)
    (inv : CowInv h0 h) (hv : ValHigh h0.fresh vEntry) (hn : ValHigh h0.fresh vNext) :
    CowInv h0 (sandboxWrite h vEntry backend vNext).1 ∧
      ∀ w, (sandboxWrite h vEntry backend vNext).2 = some w → ValHigh h0.fresh w := by
  have hc := coalesce_inv h0 h (getPropV h vEntry "sandbox") (Node.obj [])
      inv (getPropV_high h0 h inv vEntry "sandbox" hv) (by simp [nodeRefs])
  simp only [sandboxWrite]
  split
  · exact ⟨hc.1, by intro w hw; cases hw⟩
  · next h2 hs =>
    have i2 := setPropV_inv h0 _ vEntry _ "sandbox" h2 hc.1 hv hc.2 hs
    split
    · exact ⟨i2, by intro w hw; cases hw⟩
    · next h3 hs2 =>
      have i3 := setPropV_inv h0 h2 _ (.str backend) "backend" h3 i2 hc.2 trivial hs2
      refine ⟨i3, ?_⟩
      intro w hw
      have : vNext = w := by injection hw
      rw [← this]; exact hn

/-- Reading from an address of a region two heaps share, whose references
stay in the region, yields the same tree in both, at every fuel. -/
theorem readValF_agree (h h' : Heap) (n : Nat)
    (hagree : ∀ a, a < n → h'.mem a = h.mem a)
    (hrefs : ∀ a node, h.mem a = some node → ∀ b ∈ nodeRefs node, b < n) :
    ∀ (fuel : Nat) (v : JVal), (∀ b, v = .ref b → b < n) →
      readValF h' fuel v = readValF h fuel v := by
  intro fuel
  induction fuel with
  | zero => intro v hv; cases v <;> simp [readValF]
  | succ fuel ih =>
    intro v hv
    cases v with
    | str s => simp [readValF]
    | undefined => simp [readValF]
    | ref a =>
      have ha : a < n := hv a rfl
      have hmem2 : h'.mem a = h.mem a := hagree a ha
      cases hm : h.mem a with
      | none => simp only [readValF, hmem2, hm]
      | some node =>
        cases node with
        | obj fs =>
          simp only [readValF, hmem2, hm]
          congr 1
          apply List.map_congr_left
          intro kv hkv
          exact congrArg (Prod.mk kv.1)
            (ih kv.2 fun b hb => hrefs a (.obj fs) hm b
              (List.mem_filterMap.mpr ⟨kv, hkv, by rw [hb]⟩))
        | arr es =>
          simp only [readValF, hmem2, hm]
          congr 1
          apply List.map_congr_left
          intro e he
          exact ih e fun b hb => hrefs a (.arr es) hm b
            (List.mem_filterMap.mpr ⟨e, he, by rw [hb]⟩)

/-- C9: `applyBackend` is copy-on-write. For every well-formed initial
heap (nothing stored at or above the allocation counter, no reference in
the original region escaping it), every agent id and backend: the caller's
configuration region is byte-for-byte untouched after the run, whether or
not the run throws; the original configuration reads back as exactly the
same tree at every fuel; and the value handed to `writeConfigFile`, when
the run completes, is a reference into the fresh clone region — a
structural clone, never the caller's object. -/
theorem c9_copy_on_write (normalize : String → String) (h0 : Heap) (cfgVal : JVal)
    (agentId : Option String) (backend : String)
    (hwf : ∀ a, h0.fresh ≤ a → h0.mem a = none)
    (hrefs : ∀ a node, h0.mem a = some node → ∀ b ∈ nodeRefs node, b < h0.fresh) :
    (∀ a, a < h0.fresh →
      (applyBackendHeap normalize h0 cfgVal agentId backend).1.mem a = h0.mem a)
    ∧ (∀ b, (applyBackendHeap normalize h0 cfgVal agentId backend).2 = some (.ref b) →
        h0.fresh ≤ b)
    ∧ (∀ fuel a, a < h0.fresh →
        readValF (applyBackendHeap normalize h0 cfgVal agentId backend).1 fuel (.ref a) =
          readValF h0 fuel (.ref a)) := by
  suffices hmain : CowInv h0 (applyBackendHeap normalize h0 cfgVal agentId backend).1 ∧
      ∀ w, (applyBackendHeap normalize h0 cfgVal agentId backend).2 = some w →
        ValHigh h0.fresh w by
    refine ⟨hmain.1.agree, ?_, ?_⟩
    · intro b hb
      exact hmain.2 (.ref b) hb
    · intro fuel a ha
      refine readValF_agree h0 _ h0.fresh hmain.1.agree hrefs fuel (.ref a) ?_
      intro b hb
      have hab : a = b := by injection hb
      rw [← hab]; exact ha
  have inv0 := CowInv.base h0 hwf
  have hcl := cloneVal_inv h0 h0.fresh cfgVal h0 inv0
  cases agentId with
  | some aid =>
    simp only [applyBackendHeap]
    have hg1 := getPropV_high h0 _ hcl.1 (cloneVal h0 h0.fresh cfgVal).2 "agents" hcl.2
    have hc1 := coalesce_inv h0 (cloneVal h0 h0.fresh cfgVal).1 _ (Node.obj [])
      hcl.1 hg1 (by simp [nodeRefs])
    split
    · exact ⟨hc1.1, by intro w hw; cases hw⟩
    · next h3 hs1 =>
      have i3 := setPropV_inv h0 _ _ _ "agents" h3 hc1.1 hcl.2 hc1.2 hs1
      have hg2 := getPropV_high h0 h3 i3 _ "list" hc1.2
      have hc2 := coalesce_inv h0 h3 _ (Node.arr []) i3 hg2 (by simp [nodeRefs])
      split
      · exact ⟨hc2.1, by intro w hw; cases hw⟩
      · next h5 hs2 =>
        have i5 := setPropV_inv h0 _ _ _ "list" h5 hc2.1 hc1.2 hc2.2 hs2
        split
        · exact ⟨i5, by intro w hw; cases hw⟩
        · next es hes =>
          have hesHigh := arrElems_high h0 h5 i5 _ es hc2.2 hes
          split
          · next vEntry hfind =>
            exact sandboxWrite_spec h0 h5 vEntry _ backend i5
              (hesHigh vEntry (List.mem_of_find?_eq_some hfind)) hcl.2
          · next hfind =>
            have ha := alloc_inv h0 h5 (.obj [("id", .str aid)]) i5 (by simp [nodeRefs])
            split
            · exact ⟨ha.1, by intro w hw; cases hw⟩
            · next h7 hp =>
              have i7 := pushElem_inv h0 _ _
                (JVal.ref (h5.alloc (.obj [("id", JVal.str aid)])).2) h7 ha.1 hc2.2 ha.2 hp
              exact sandboxWrite_spec h0 h7
                (JVal.ref (h5.alloc (.obj [("id", JVal.str aid)])).2) _ backend i7 ha.2 hcl.2
  | none =>
    simp only [applyBackendHeap]
    have hg1 := getPropV_high h0 _ hcl.1 (cloneVal h0 h0.fresh cfgVal).2 "agents" hcl.2
    have hc1 := coalesce_inv h0 (cloneVal h0 h0.fresh cfgVal).1 _ (Node.obj [])
      hcl.1 hg1 (by simp [nodeRefs])
    split
    · exact ⟨hc1.1, by intro w hw; cases hw⟩
    · next h3 hs1 =>
      have i3 := setPropV_inv h0 _ _ _ "agents" h3 hc1.1 hcl.2 hc1.2 hs1
      have hg2 := getPropV_high h0 h3 i3 _ "defaults" hc1.2
      have hc2 := coalesce_inv h0 h3 _ (Node.obj []) i3 hg2 (by simp [nodeRefs])
      split
      · exact ⟨hc2.1, by intro w hw; cases hw⟩
      · next h5 hs2 =>
        have i5 := setPropV_inv h0 _ _ _ "defaults" h5 hc2.1 hc1.2 hc2.2 hs2
        have hg3 := getPropV_high h0 h5 i5 _ "sandbox" hc2.2
        have hc3 := coalesce_inv h0 h5 _ (Node.obj []) i5 hg3 (by simp [nodeRefs])
        split
        · exact ⟨hc3.1, by intro w hw; cases hw⟩
        · next h7 hs3 =>
          have i7 := setPropV_inv h0 _ _ _ "sandbox" h7 hc3.1 hc2.2 hc3.2 hs3
          split
          · exact ⟨i7, by intro w hw; cases hw⟩
          · next h8 hs4 =>
            have i8 := setPropV_inv h0 _ _ (.str backend) "backend" h8 i7 hc3.2 trivial hs4
            refine ⟨i8, ?_⟩
            intro w hw
            have hwe : (cloneVal h0 h0.fresh cfgVal).2 = w := by injection hw
            rw [← hwe]; exact hcl.2

/-- The one-object heap for the C9 witness: a single empty configuration
object at address 0. -/
def c9Heap : Heap := ⟨fun a => if a = 0 then some (.obj []) else none, 1⟩

/-- C9 witness: the theorem evaluated on the one-object heap; the original
address still holds its node after a per-agent apply. -/
theorem c9_copy_on_write_witness :
    (applyBackendHeap id c9Heap (.ref 0) (some "work") "podman").1.mem 0 = c9Heap.mem 0 :=
  (c9_copy_on_write id c9Heap (.ref 0) (some "work") "podman"
    (by intro a ha
        have ha2 : 1 ≤ a := ha
        have : a ≠ 0 := by omega
        simp [c9Heap, this])
    (by intro a node hm b hb
        by_cases h : a = 0
        · subst h
          simp [c9Heap] at hm
          rw [← hm] at hb
          simp [nodeRefs] at hb
        · simp [c9Heap, h] at hm)).1 0 (by decide)

/-! ## Provisioning wizard (`runPodmanSetup` and its detection helpers)

The wizard is a strictly sequential prompt machine. Its collaborators are
oracles in `WEnv`: the shell (`runExec`, binary and argv to outcome, a
thrown error rendered as `String(err)`), the platform facts
(`os.platform()`, `os.userInfo().username`, `os.homedir()`) and the clack
prompt responses, where `none` is the cancellation sentinel (`isCancel`).
The wizard's observable behaviour is its trace of `Event`s. -/

/-- Outcome of one `runExec` call. -/
inductive ExecOut where
  | ok (stdout : String)
  | fail (msg : String)
  deriving DecidableEq

/-- The wizard's environment: platform facts, the shell oracle and the
operator's prompt responses (`none` = the cancellation sentinel). -/
structure WEnv where
  platform : String
  currentUser : String
  homeDir : String
  exec : String → List String → ExecOut
  userResp : Option String
  createResp : Option Bool
  subuidResp : Option String
  subgidResp : Option String
  quadletResp : Option Bool

/-- Host-detection record (`PodmanHostInfo`). -/
structure PodmanHostInfo where
  podmanAvailable : Bool
  user : String
  userExists : Bool
  hasSubuid : Bool
  hasSubgid : Bool
  subuidRange : Option String
  subgidRange : Option String
  systemdAvailable : Bool
  quadletInstalled : Bool
  platform : String
  deriving DecidableEq

/-- Exec events for a list of (binary, argv) probes. -/
def execEvents (l : List (String × List String)) : List Event :=
  l.map fun p => Event.exec p.1 p.2

/-- Did a probe succeed? (`try { await runExec(...) } catch`). -/
def execOk (out : ExecOut) : Bool :=
  match out with | .ok _ => true | .fail _ => false

/-- One `grep ^user: FILE` probe result: the present flag and the trimmed
matching line (`if (line) { has = true; range = line }`). -/
def grepSubidProbe (out : ExecOut) : Bool × Option String :=
  match out with
  | .ok stdout => if strTrim stdout ≠ "" then (true, some (strTrim stdout)) else (false, none)
  | .fail _ => (false, none)

/-- Path of the per-user Quadlet unit under a home directory. -/
def quadletPathFor (homeDir : String) : String :=
  homeDir ++ "/.config/containers/systemd/openclaw.container"

/-- The Quadlet-presence probe of `detectPodmanHost`: resolve the home
directory (directly for the invoking user, else `bash -c echo ~user`; a
failed lookup fails the whole try) and `test -f` the unit path. -/
def quadletProbe (env : WEnv) (user : String) : List Event × Bool :=
  if user == env.currentUser then
    ([Event.exec "test" ["-f", quadletPathFor env.homeDir]],
     execOk (env.exec "test" ["-f", quadletPathFor env.homeDir]))
  else
    match env.exec "bash" ["-c", "echo ~" ++ user] with
    | .fail _ => ([Event.exec "bash" ["-c", "echo ~" ++ user]], false)
    | .ok out =>
      ([Event.exec "bash" ["-c", "echo ~" ++ user],
        Event.exec "test" ["-f", quadletPathFor (strTrim out)]],
       execOk (env.exec "test" ["-f", quadletPathFor (strTrim out)]))

/-- `detectPodmanHost`: the fixed probe sequence — podman presence, the
preferred "openclaw" service user, the subuid/subgid lines (Linux only),
the definitive user-existence re-check, systemd presence, and the Quadlet
unit presence (only with systemd and an existing user). Every probe
failure degrades to the conservative absent value. -/
def detectPodmanHost (env : WEnv) : List Event × PodmanHostInfo :=
  let podmanAvailable := execOk (env.exec "podman" ["version"])
  let user := match env.exec "id" ["-u", "openclaw"] with
    | .ok _ => "openclaw"
    | .fail _ => env.currentUser
  let su := if env.platform == "linux" then
      grepSubidProbe (env.exec "grep" ["^" ++ user ++ ":", "/etc/subuid"])
    else (false, none)
  let sg := if env.platform == "linux" then
      grepSubidProbe (env.exec "grep" ["^" ++ user ++ ":", "/etc/subgid"])
    else (false, none)
  let userExists := execOk (env.exec "id" ["-u", user])
  let systemdAvailable := execOk (env.exec "systemctl" ["--version"])
  let quadlet := if systemdAvailable && userExists then quadletProbe env user else ([], false)
  (execEvents [("podman", ["version"]), ("id", ["-u", "openclaw"])]
    ++ (if env.platform == "linux" then
          execEvents [("grep", ["^" ++ user ++ ":", "/etc/subuid"]),
                      ("grep", ["^" ++ user ++ ":", "/etc/subgid"])]
        else [])
    ++ execEvents [("id", ["-u", user]), ("systemctl", ["--version"])]
    ++ quadlet.1,
   ⟨podmanAvailable, user, userExists, su.1, sg.1, su.2, sg.2,
    systemdAvailable, quadlet.2, env.platform⟩)

/-- The detection summary shown in the "Podman host detection" note. -/
def formatDetectionSummary (info : PodmanHostInfo) : String :=
  String.intercalate "\n"
    ([ "Platform:  " ++ info.platform,
       "Podman:    " ++ (if info.podmanAvailable then "installed" else "not found"),
       "User:      " ++ info.user ++ (if info.userExists then "" else " (does not exist)")]
      ++ (if info.platform == "linux" then
            [ "subuid:    " ++ (if info.hasSubuid then info.subuidRange.getD "undefined"
                                else "not configured"),
              "subgid:    " ++ (if info.hasSubgid then info.subgidRange.getD "undefined"
                                else "not configured")]
          else [])
      ++ (if info.systemdAvailable then
            ["Quadlet:   " ++ (if info.quadletInstalled then "installed" else "not installed")]
          else []))

/-- Parse a `user:start:count` range into (start, count): `range.split(":")`
and parts 1 and 2, when at least three parts exist. (Used only to seed the
prompts' initial values, which the prompt oracle supersedes.) -/
def parseSubidRange (range : String) : Option (String × String) :=
  match range.splitOn ":" with
  | _ :: b :: c :: _ => some (b, c)
  | _ => none

/-- Result of `checkSubids`. -/
structure Subids where
  hasSubuid : Bool
  hasSubgid : Bool
  subuidRange : Option String
  subgidRange : Option String
  deriving DecidableEq

/-- `checkSubids`: re-probe the subuid/subgid lines for a specific user. -/
def checkSubids (env : WEnv) (user : String) : List Event × Subids :=
  let su := grepSubidProbe (env.exec "grep" ["^" ++ user ++ ":", "/etc/subuid"])
  let sg := grepSubidProbe (env.exec "grep" ["^" ++ user ++ ":", "/etc/subgid"])
  (execEvents [("grep", ["^" ++ user ++ ":", "/etc/subuid"]),
               ("grep", ["^" ++ user ++ ":", "/etc/subgid"])],
   ⟨su.1, sg.1, su.2, sg.2⟩)

/-- One wizard step: emitted events, and `none` when the wizard returned
early (cancellation, or the fatal user-creation failure). -/
def SRes (α : Type) : Type := List Event × Option α

/-- Sequencing of wizard steps: an early return skips everything after. -/
def sseq {α β : Type} (r : SRes α) (f : α → SRes β) : SRes β :=
  match r with
  | (tr, none) => (tr, none)
  | (tr, some a) => (tr ++ (f a).1, (f a).2)

/-- The wizard's opening: detection, the detection-summary note, and the
podman-missing / non-Linux advisory notes. -/
def introStep (env : WEnv) : SRes PodmanHostInfo :=
  ((detectPodmanHost env).1
    ++ [Event.note (formatDetectionSummary (detectPodmanHost env).2) "Podman host detection"]
    ++ (if (detectPodmanHost env).2.podmanAvailable then [] else
         [Event.log ("Note: Podman is not installed on this system.\n" ++
            "  Install: https://podman.io/docs/installation")])
    ++ (if env.platform == "linux" then [] else
         [Event.log "Note: Podman sandbox requires Linux. Configuring for a remote host."]),
   some (detectPodmanHost env).2)

/-- The user prompt: the sentinel cancels; otherwise the trimmed entry,
falling back to the detected user when empty (`userResult.trim() || info.user`). -/
def userPromptStep (env : WEnv) (info : PodmanHostInfo) : SRes String :=
  match env.userResp with
  | none => ([Event.cancelled], none)
  | some u => ([], some (if strTrim u == "" then info.user else strTrim u))

/-- The creation decision once the user's existence is settled: nothing
to do for an existing user; otherwise the confirm prompt (cancellable),
then either creation plus best-effort lingering — a creation failure
reports the error, asks for manual creation, and returns early — or the
printed manual creation command on decline. -/
def userCreationCore (env : WEnv) (podmanUser : String) (userExistsNow : Bool) : SRes Unit :=
  if userExistsNow then ([], some ()) else
    match env.createResp with
    | none => ([Event.cancelled], none)
    | some false =>
      ([Event.log ("Skipped. Create the user manually:\n  sudo useradd -m -s /usr/sbin/nologin "
          ++ podmanUser)], some ())
    | some true =>
      match env.exec "sudo" ["useradd", "-m", "-s", "/usr/sbin/nologin", podmanUser] with
      | .ok _ =>
        ([Event.exec "sudo" ["useradd", "-m", "-s", "/usr/sbin/nologin", podmanUser],
          Event.log ("Created user \"" ++ podmanUser ++ "\"."),
          Event.exec "sudo" ["loginctl", "enable-linger", podmanUser]], some ())
      | .fail msg =>
        ([Event.exec "sudo" ["useradd", "-m", "-s", "/usr/sbin/nologin", podmanUser],
          Event.error ("Failed to create user: " ++ msg),
          Event.log "Create the user manually and re-run this command."], none)

/-- The Linux user-creation passage: `userExistsNow` is the detection
result when the chosen user is the detected one, and a fresh `id -u`
re-probe otherwise; then the creation decision. Off Linux, nothing. -/
def userCreationStep (env : WEnv) (info : PodmanHostInfo) (podmanUser : String) : SRes Unit :=
  if info.platform == "linux" then
    if podmanUser == info.user then userCreationCore env podmanUser info.userExists
    else
      (Event.exec "id" ["-u", podmanUser] ::
        (userCreationCore env podmanUser (execOk (env.exec "id" ["-u", podmanUser]))).1,
       (userCreationCore env podmanUser (execOk (env.exec "id" ["-u", podmanUser]))).2)
  else ([], some ())

/-- The subids re-check before the range prompts (Linux only; off Linux
the conservative all-absent record, with no probe). -/
def subidsStep (env : WEnv) (info : PodmanHostInfo) (podmanUser : String) : SRes Subids :=
  if info.platform == "linux" then
    ((checkSubids env podmanUser).1, some (checkSubids env podmanUser).2)
  else ([], some ⟨false, false, none, none⟩)

/-- The subordinate-UID range prompt. -/
def subuidPromptStep (env : WEnv) : SRes String :=
  match env.subuidResp with
  | none => ([Event.cancelled], none)
  | some v => ([], some (strTrim v))

/-- The subordinate-GID range prompt. -/
def subgidPromptStep (env : WEnv) : SRes String :=
  match env.subgidResp with
  | none => ([Event.cancelled], none)
  | some v => ([], some (strTrim v))

/-- The composed desired line `user:start:count` (`${podmanUser}:${value}`). -/
def desiredSubidLine (user value : String) : String := user ++ ":" ++ value

/-- Argv of the in-place edit of an existing subordinate-range line,
matched by the `^user:` prefix. -/
def sedSubidArgs (user desired file : String) : List String :=
  ["bash", "-c", "sed -i 's/^" ++ user ++ ":.*/" ++ desired ++ "/' " ++ file]

/-- Argv of the append of a new subordinate-range line. -/
def appendSubidArgs (desired file : String) : List String :=
  ["bash", "-c", "echo '" ++ desired ++ "' >> " ++ file]

/-- One subordinate-range mutation attempt: the sudo command, then the
success log, or the error plus the literal manual fallback command. -/
def subidMutate (env : WEnv) (cmd : List String) (label desired file : String) : List Event :=
  match env.exec "sudo" cmd with
  | .ok _ => [Event.exec "sudo" cmd, Event.log (label ++ ": " ++ desired)]
  | .fail msg =>
    [Event.exec "sudo" cmd,
     Event.error ("Failed to set " ++ label ++ ": " ++ msg),
     Event.log ("Set manually:\n  echo '" ++ desired ++ "' | sudo tee -a " ++ file)]

/-- The subuid half of the apply passage: mutate when there is no existing
entry (append) or the existing line differs from the desired one (in-place
sed edit matched by the user prefix); an existing line equal to the
desired one emits only the "(unchanged)" notice, with no command run. -/
def subuidApplyBlock (env : WEnv) (podmanUser desired : String)
    (hasSubuid : Bool) (range : Option String) : List Event :=
  if !hasSubuid || (range != some desired) then
    subidMutate env
      (if hasSubuid then sedSubidArgs podmanUser desired "/etc/subuid"
       else appendSubidArgs desired "/etc/subuid") "subuid" desired "/etc/subuid"
  else [Event.log ("subuid: " ++ desired ++ " (unchanged)")]

/-- The subgid half of the apply passage (same shape, `/etc/subgid`). -/
def subgidApplyBlock (env : WEnv) (podmanUser desired : String)
    (hasSubgid : Bool) (range : Option String) : List Event :=
  if !hasSubgid || (range != some desired) then
    subidMutate env
      (if hasSubgid then sedSubidArgs podmanUser desired "/etc/subgid"
       else appendSubidArgs desired "/etc/subgid") "subgid" desired "/etc/subgid"
  else [Event.log ("subgid: " ++ desired ++ " (unchanged)")]

/-- The apply-subordinate-ranges step: on Linux the uid block then,
unconditionally, the gid block; off Linux the two manual commands are
printed and no mutation is attempted. The step never returns early. -/
def applySubidsStep (env : WEnv) (info : PodmanHostInfo) (podmanUser : String)
    (subids : Subids) (subuidValue subgidValue : String) : SRes Unit :=
  if info.platform == "linux" then
    (subuidApplyBlock env podmanUser (desiredSubidLine podmanUser subuidValue)
        subids.hasSubuid subids.subuidRange
      ++ subgidApplyBlock env podmanUser (desiredSubidLine podmanUser subgidValue)
        subids.hasSubgid subids.subgidRange, some ())
  else
    ([Event.log "\nOn the target Linux host, run:",
      Event.log ("  echo '" ++ desiredSubidLine podmanUser subuidValue
        ++ "' | sudo tee -a /etc/subuid"),
      Event.log ("  echo '" ++ desiredSubidLine podmanUser subgidValue
        ++ "' | sudo tee -a /etc/subgid")], some ())

/-- The Quadlet choice: a systemd-missing note when applicable, then the
skip/install select (cancellable; `true` = install). -/
def quadletPromptStep (env : WEnv) (info : PodmanHostInfo) : SRes Bool :=
  ((if info.systemdAvailable then [] else
      [Event.note "systemd not detected — Quadlet options shown for remote host setup."
        "Quadlet"])
    ++ (match env.quadletResp with
        | none => [Event.cancelled]
        | some _ => []),
   env.quadletResp)

/-- The rendered Quadlet unit file (`[...].join("\n")`; the trailing empty
entry yields the final newline). -/
def quadletContent (homeDir : String) : String :=
  String.intercalate "\n"
    ["# OpenClaw gateway — Podman Quadlet (rootless)",
     "",
     "[Unit]",
     "Description=OpenClaw gateway (rootless Podman)",
     "",
     "[Container]",
     "Image=openclaw:local",
     "ContainerName=openclaw",
     "UserNS=keep-id",
     "Volume=" ++ homeDir ++ "/.openclaw:/home/node/.openclaw",
     "EnvironmentFile=" ++ homeDir ++ "/.openclaw/.env",
     "Environment=HOME=/home/node",
     "Environment=TERM=xterm-256color",
     "PublishPort=18789:18789",
     "PublishPort=18790:18790",
     "Pull=never",
     "Exec=node dist/index.js gateway --bind lan --port 18789",
     "",
     "[Service]",
     "TimeoutStartSec=300",
     "Restart=on-failure",
     "",
     "[Install]",
     "WantedBy=default.target",
     ""]

/-- The manual reload/enable fallback printed when the unit was written
but reload or enable failed. -/
def quadletManualMsg (podmanUser quadletPath : String) : String :=
  "Quadlet unit written to " ++ quadletPath ++ ". Reload manually:\n"
    ++ "  sudo systemctl --machine=" ++ podmanUser ++ "@ --user daemon-reload\n"
    ++ "  sudo systemctl --machine=" ++ podmanUser ++ "@ --user enable openclaw.service"

/-- Directory of the per-user Quadlet units under a home directory. -/
def quadletDirFor (homeDir : String) : String := homeDir ++ "/.config/containers/systemd"

/-- Argv of the unit-file here-document write, run as the target user. -/
def quadletWriteArgs (podmanUser homeDir : String) : List String :=
  ["-u", podmanUser, "bash", "-c",
   "cat > '" ++ quadletPathFor homeDir ++ "' <<'QUADLET_EOF'\n"
     ++ quadletContent homeDir ++ "QUADLET_EOF"]

/-- Argv of the per-user daemon-reload. -/
def quadletReloadArgs (podmanUser : String) : List String :=
  ["systemctl", "--machine=" ++ podmanUser ++ "@", "--user", "daemon-reload"]

/-- Argv of the per-user service enable. -/
def quadletEnableArgs (podmanUser : String) : List String :=
  ["systemctl", "--machine=" ++ podmanUser ++ "@", "--user", "enable", "openclaw.service"]

/-- The reload-and-enable tail after a successful unit write: both inside
one try whose catch prints the manual reload/enable commands. -/
def quadletReloadEnable (env : WEnv) (podmanUser homeDir : String) : List Event :=
  match env.exec "sudo" (quadletReloadArgs podmanUser) with
  | .fail _ =>
    [Event.exec "sudo" (quadletReloadArgs podmanUser),
     Event.log (quadletManualMsg podmanUser (quadletPathFor homeDir))]
  | .ok _ =>
    match env.exec "sudo" (quadletEnableArgs podmanUser) with
    | .fail _ =>
      [Event.exec "sudo" (quadletReloadArgs podmanUser),
       Event.exec "sudo" (quadletEnableArgs podmanUser),
       Event.log (quadletManualMsg podmanUser (quadletPathFor homeDir))]
    | .ok _ =>
      [Event.exec "sudo" (quadletReloadArgs podmanUser),
       Event.exec "sudo" (quadletEnableArgs podmanUser),
       Event.log "Quadlet unit installed and enabled."]

/-- The Quadlet install step (only on "install"). On Linux with systemd:
resolve home, mkdir as the target user, write the unit via a single
here-document, then daemon-reload and enable; a failure after the write
degrades to the manual reload/enable commands, a failure at or before the
write degrades to a single error line. On any other platform combination
the manual command sequence is printed. The step never returns early. -/
def quadletInstallStep (env : WEnv) (info : PodmanHostInfo) (podmanUser : String)
    (doInstall : Bool) : SRes Unit :=
  if !doInstall then ([], some ()) else
  if info.platform == "linux" && info.systemdAvailable then
    match env.exec "bash" ["-c", "echo ~" ++ podmanUser] with
    | .fail msg =>
      ([Event.exec "bash" ["-c", "echo ~" ++ podmanUser],
        Event.error ("Failed to install Quadlet unit: " ++ msg)], some ())
    | .ok out =>
      match env.exec "sudo" ["-u", podmanUser, "mkdir", "-p", quadletDirFor (strTrim out)] with
      | .fail msg =>
        ([Event.exec "bash" ["-c", "echo ~" ++ podmanUser],
          Event.exec "sudo" ["-u", podmanUser, "mkdir", "-p", quadletDirFor (strTrim out)],
          Event.error ("Failed to install Quadlet unit: " ++ msg)], some ())
      | .ok _ =>
        match env.exec "sudo" (quadletWriteArgs podmanUser (strTrim out)) with
        | .fail msg =>
          ([Event.exec "bash" ["-c", "echo ~" ++ podmanUser],
            Event.exec "sudo" ["-u", podmanUser, "mkdir", "-p", quadletDirFor (strTrim out)],
            Event.exec "sudo" (quadletWriteArgs podmanUser (strTrim out)),
            Event.error ("Failed to install Quadlet unit: " ++ msg)], some ())
        | .ok _ =>
          ([Event.exec "bash" ["-c", "echo ~" ++ podmanUser],
            Event.exec "sudo" ["-u", podmanUser, "mkdir", "-p", quadletDirFor (strTrim out)],
            Event.exec "sudo" (quadletWriteArgs podmanUser (strTrim out))]
            ++ quadletReloadEnable env podmanUser (strTrim out), some ())
  else
    ([Event.log "\nOn the target Linux host, create the Quadlet unit:",
      Event.log ("  mkdir -p ~" ++ podmanUser ++ "/.config/containers/systemd"),
      Event.log ("  Copy your openclaw.container file to ~" ++ podmanUser
        ++ "/.config/containers/systemd/openclaw.container"),
      Event.log ("  sudo systemctl --machine=" ++ podmanUser ++ "@ --user daemon-reload"),
      Event.log ("  sudo systemctl --machine=" ++ podmanUser ++ "@ --user enable openclaw.service")],
     some ())

/-- The full wizard `runPodmanSetup`: the step sequence with early return
on cancellation or fatal user-creation failure. -/
def runPodmanSetupRes (env : WEnv) : SRes Unit :=
  sseq (introStep env) fun info =>
  sseq (userPromptStep env info) fun podmanUser =>
  sseq (userCreationStep env info podmanUser) fun _ =>
  sseq (subidsStep env info podmanUser) fun subids =>
  sseq (subuidPromptStep env) fun subuidValue =>
  sseq (subgidPromptStep env) fun subgidValue =>
  sseq (applySubidsStep env info podmanUser subids subuidValue subgidValue) fun _ =>
  sseq (quadletPromptStep env info) fun doInstall =>
  quadletInstallStep env info podmanUser doInstall

/-- The wizard's event trace. -/
def runPodmanSetup (env : WEnv) : List Event := (runPodmanSetupRes env).1

/-- A step respects the cancellation contract: if the cancellation notice
is in its trace, the step returned early and the notice is its final
event. -/
def CancelLast {α : Type} (r : SRes α) : Prop :=
  Event.cancelled ∈ r.1 →
    r.2 = none ∧ ∃ pre, r.1 = pre ++ [Event.cancelled] ∧ Event.cancelled ∉ pre

/-- A step that never emits the notice respects the contract. -/
theorem cancelLast_of_not_mem {α : Type} (r : SRes α) (h : Event.cancelled ∉ r.1) :
    CancelLast r := fun hmem => absurd hmem h

/-- Sequencing preserves the cancellation contract. -/
theorem sseq_cancelLast {α β : Type} (r : SRes α) (f : α → SRes β)
    (hr : CancelLast r) (hf : ∀ a, CancelLast (f a)) : CancelLast (sseq r f) := by
  obtain ⟨tr, o⟩ := r
  cases o with
  | none =>
    intro hmem
    simp only [sseq] at hmem ⊢
    rcases hr hmem with ⟨_, pre, hpre, hnot⟩
    refine ⟨?_, pre, hpre, hnot⟩
    trivial
  | some a =>
    intro hmem
    simp only [sseq] at hmem ⊢
    rcases List.mem_append.mp hmem with h1 | h2
    · exact absurd (hr h1).1 (by simp)
    · rcases hf a h2 with ⟨hno, pre2, hpre, hnot⟩
      refine ⟨hno, tr ++ pre2, ?_, ?_⟩
      · rw [hpre, List.append_assoc]
      · intro hc
        rcases List.mem_append.mp hc with hc1 | hc2
        · exact absurd (hr hc1).1 (by simp)
        · exact hnot hc2

/-- Probe traces hold only exec events. -/
theorem execEvents_no_cancel (l : List (String × List String)) :
    Event.cancelled ∉ execEvents l := by
  intro h
  simp [execEvents] at h

/-- The Quadlet-presence probe never emits the notice. -/
theorem quadletProbe_no_cancel (env : WEnv) (user : String) :
    Event.cancelled ∉ (quadletProbe env user).1 := by
  unfold quadletProbe
  split
  · simp
  · split <;> simp

/-- Detection never emits the notice. -/
theorem detect_no_cancel (env : WEnv) : Event.cancelled ∉ (detectPodmanHost env).1 := by
  intro hmem
  simp only [detectPodmanHost, List.mem_append] at hmem
  rcases hmem with ((h | h) | h) | h
  · exact execEvents_no_cancel _ h
  · revert h
    split <;> intro h
    · exact execEvents_no_cancel _ h
    · simp at h
  · exact execEvents_no_cancel _ h
  · revert h
    split <;> intro h
    · exact quadletProbe_no_cancel env _ h
    · simp at h

/-- The opening step never emits the notice. -/
theorem introStep_no_cancel (env : WEnv) : Event.cancelled ∉ (introStep env).1 := by
  intro hmem
  simp only [introStep, List.mem_append] at hmem
  rcases hmem with ((h | h) | h) | h
  · exact detect_no_cancel env h
  · simp at h
  · revert h
    split <;> intro h <;> simp at h
  · revert h
    split <;> intro h <;> simp at h

/-- The user prompt respects the cancellation contract. -/
theorem userPromptStep_cancelLast (env : WEnv) (info : PodmanHostInfo) :
    CancelLast (userPromptStep env info) := by
  unfold CancelLast userPromptStep
  cases env.userResp with
  | none => exact fun _ => ⟨rfl, [], rfl, by simp⟩
  | some u => intro hmem; simp at hmem

/-- Prefixing a non-notice event preserves the cancellation contract. -/
theorem cancelLast_cons {α : Type} (e : Event) (r : SRes α) (he : e ≠ Event.cancelled)
    (hr : CancelLast r) : CancelLast (e :: r.1, r.2) := by
  intro hmem
  rcases List.mem_cons.mp hmem with h | h
  · exact absurd h.symm he
  · rcases hr h with ⟨hno, pre, hpre, hnot⟩
    refine ⟨hno, e :: pre, ?_, ?_⟩
    · show e :: r.1 = (e :: pre) ++ [Event.cancelled]
      rw [hpre]; rfl
    · intro hc
      rcases List.mem_cons.mp hc with h1 | h1
      · exact he h1.symm
      · exact hnot h1

/-- The creation decision respects the cancellation contract. -/
theorem userCreationCore_cancelLast (env : WEnv) (podmanUser : String) (userExistsNow : Bool) :
    CancelLast (userCreationCore env podmanUser userExistsNow) := by
  unfold CancelLast userCreationCore
  split
  · intro hmem; simp at hmem
  · cases env.createResp with
    | none => exact fun _ => ⟨rfl, [], rfl, by simp⟩
    | some b =>
      cases b with
      | false => intro hmem; simp at hmem
      | true =>
        cases env.exec "sudo" ["useradd", "-m", "-s", "/usr/sbin/nologin", podmanUser] with
        | ok s => intro hmem; simp at hmem
        | fail msg => intro hmem; simp at hmem

/-- The user-creation passage respects the cancellation contract. -/
theorem userCreationStep_cancelLast (env : WEnv) (info : PodmanHostInfo) (podmanUser : String) :
    CancelLast (userCreationStep env info podmanUser) := by
  unfold userCreationStep
  split
  · split
    · exact userCreationCore_cancelLast env podmanUser info.userExists
    · exact cancelLast_cons _ _ (by simp) (userCreationCore_cancelLast env podmanUser _)
  · intro hmem; simp at hmem

/-- The subid re-check step never emits the notice. -/
theorem subidsStep_no_cancel (env : WEnv) (info : PodmanHostInfo) (podmanUser : String) :
    Event.cancelled ∉ (subidsStep env info podmanUser).1 := by
  unfold subidsStep
  split
  · exact execEvents_no_cancel _
  · simp

/-- The subordinate-UID prompt respects the cancellation contract. -/
theorem subuidPromptStep_cancelLast (env : WEnv) : CancelLast (subuidPromptStep env) := by
  unfold CancelLast subuidPromptStep
  cases env.subuidResp with
  | none => exact fun _ => ⟨rfl, [], rfl, by simp⟩
  | some v => intro hmem; simp at hmem

/-- The subordinate-GID prompt respects the cancellation contract. -/
theorem subgidPromptStep_cancelLast (env : WEnv) : CancelLast (subgidPromptStep env) := by
  unfold CancelLast subgidPromptStep
  cases env.subgidResp with
  | none => exact fun _ => ⟨rfl, [], rfl, by simp⟩
  | some v => intro hmem; simp at hmem

/-- The subuid apply half never emits the notice. -/
theorem subuidApplyBlock_no_cancel (env : WEnv) (u d : String) (hs : Bool) (r : Option String) :
    Event.cancelled ∉ subuidApplyBlock env u d hs r := by
  unfold subuidApplyBlock subidMutate
  split
  · split <;> simp
  · simp

/-- The subgid apply half never emits the notice. -/
theorem subgidApplyBlock_no_cancel (env : WEnv) (u d : String) (hs : Bool) (r : Option String) :
    Event.cancelled ∉ subgidApplyBlock env u d hs r := by
  unfold subgidApplyBlock subidMutate
  split
  · split <;> simp
  · simp

/-- The apply step never emits the notice. -/
theorem applySubidsStep_no_cancel (env : WEnv) (info : PodmanHostInfo) (u : String)
    (subids : Subids) (uv gv : String) :
    Event.cancelled ∉ (applySubidsStep env info u subids uv gv).1 := by
  unfold applySubidsStep
  split
  · intro hmem
    rcases List.mem_append.mp hmem with h | h
    · exact subuidApplyBlock_no_cancel env _ _ _ _ h
    · exact subgidApplyBlock_no_cancel env _ _ _ _ h
  · simp

/-- The Quadlet choice respects the cancellation contract. -/
theorem quadletPromptStep_cancelLast (env : WEnv) (info : PodmanHostInfo) :
    CancelLast (quadletPromptStep env info) := by
  have hpre : Event.cancelled ∉
      (if info.systemdAvailable then ([] : List Event) else
        [Event.note "systemd not detected — Quadlet options shown for remote host setup."
          "Quadlet"]) := by
    split <;> simp
  unfold CancelLast quadletPromptStep
  cases hq : env.quadletResp with
  | none => exact fun _ => ⟨rfl, _, rfl, hpre⟩
  | some b =>
    intro hmem
    rcases List.mem_append.mp hmem with h | h
    · exact absurd h hpre
    · simp at h

/-- The reload-and-enable tail never emits the notice. -/
theorem quadletReloadEnable_no_cancel (env : WEnv) (u homeDir : String) :
    Event.cancelled ∉ quadletReloadEnable env u homeDir := by
  unfold quadletReloadEnable
  split
  · simp
  · split <;> simp

/-- The install step never emits the notice. -/
theorem quadletInstallStep_no_cancel (env : WEnv) (info : PodmanHostInfo) (u : String)
    (doInstall : Bool) :
    Event.cancelled ∉ (quadletInstallStep env info u doInstall).1 := by
  unfold quadletInstallStep
  split
  · simp
  · split
    · split
      · simp
      · split
        · simp
        · split
          · simp
          · intro hmem
            rcases List.mem_append.mp hmem with h | h
            · simp at h
            · exact quadletReloadEnable_no_cancel env u _ h
    · simp

/-- The whole wizard respects the cancellation contract. -/
theorem runPodmanSetupRes_cancelLast (env : WEnv) : CancelLast (runPodmanSetupRes env) := by
  unfold runPodmanSetupRes
  apply sseq_cancelLast _ _ (cancelLast_of_not_mem _ (introStep_no_cancel env))
  intro info
  apply sseq_cancelLast _ _ (userPromptStep_cancelLast env info)
  intro podmanUser
  apply sseq_cancelLast _ _ (userCreationStep_cancelLast env info podmanUser)
  intro _
  apply sseq_cancelLast _ _ (cancelLast_of_not_mem _ (subidsStep_no_cancel env info podmanUser))
  intro subids
  apply sseq_cancelLast _ _ (subuidPromptStep_cancelLast env)
  intro subuidValue
  apply sseq_cancelLast _ _ (subgidPromptStep_cancelLast env)
  intro subgidValue
  apply sseq_cancelLast _ _
    (cancelLast_of_not_mem _ (applySubidsStep_no_cancel env info podmanUser subids subuidValue subgidValue))
  intro _
  apply sseq_cancelLast _ _ (quadletPromptStep_cancelLast env info)
  intro doInstall
  exact cancelLast_of_not_mem _ (quadletInstallStep_no_cancel env info podmanUser doInstall)

/-- In a trace that ends with its only cancellation notice, nothing can
follow an occurrence of the notice. -/
theorem cancel_last_unique (pre2 : List Event) : ∀ (pre post : List Event),
    pre ++ Event.cancelled :: post = pre2 ++ [Event.cancelled] →
    Event.cancelled ∉ pre2 → post = [] := by
  induction pre2 with
  | nil =>
    intro pre post h _
    cases pre with
    | nil => simpa using h
    | cons p pre' =>
      simp only [List.cons_append, List.nil_append] at h
      have h2 := congrArg List.length h
      simp only [List.length_cons, List.length_append, List.length_singleton,
        List.length_nil] at h2
      omega
  | cons q pre2' ih =>
    intro pre post h hn
    cases pre with
    | nil =>
      simp only [List.nil_append, List.cons_append] at h
      have hq : Event.cancelled = q := by injection h
      exact absurd (by rw [hq]; exact List.mem_cons_self q pre2') hn
    | cons p pre' =>
      simp only [List.cons_append] at h
      have h2 : pre' ++ Event.cancelled :: post = pre2' ++ [Event.cancelled] := by
        injection h
      exact ih pre' post h2 (fun hc => hn (List.mem_cons_of_mem q hc))

/-- C4: whenever a prompt of the wizard returns the cancellation sentinel,
the cancellation notice is emitted and is the wizard's final event — the
wizard returns at that point, so no further event (in particular no
host-mutating command) ever follows the notice; and the sentinel at the
first prompt indeed produces the notice. -/
theorem c4_cancel_stops_wizard (env : WEnv) :
    (∀ pre post, runPodmanSetup env = pre ++ Event.cancelled :: post →
      post = [] ∧ (runPodmanSetupRes env).2 = none)
    ∧ (env.userResp = none → Event.cancelled ∈ runPodmanSetup env)
    ∧ (∀ u, env.userResp = some u →
        (userCreationStep env (detectPodmanHost env).2
          (if strTrim u == "" then (detectPodmanHost env).2.user else strTrim u)).2 = some () →
        env.subuidResp = none → Event.cancelled ∈ runPodmanSetup env) := by
  refine ⟨?_, ?_, ?_⟩
  · intro pre post heq
    have hc := runPodmanSetupRes_cancelLast env
    have hmem : Event.cancelled ∈ runPodmanSetup env := by
      rw [heq]
      exact List.mem_append.mpr (Or.inr (List.mem_cons_self _ _))
    rcases hc hmem with ⟨hnone, pre2, heq2, hnot⟩
    have heq3 : runPodmanSetup env = pre2 ++ [Event.cancelled] := heq2
    rw [heq] at heq3
    exact ⟨cancel_last_unique pre2 pre post heq3 hnot, hnone⟩
  · intro h
    simp [runPodmanSetup, runPodmanSetupRes, sseq, userPromptStep, introStep, h]
  · intro u hresp hcsome hsubuid
    rcases hc : userCreationStep env (detectPodmanHost env).2
        (if strTrim u == "" then (detectPodmanHost env).2.user else strTrim u) with ⟨ctr, co⟩
    rw [hc] at hcsome
    simp only at hcsome
    subst hcsome
    obtain ⟨tr2, sub, hs⟩ : ∃ tr sub, subidsStep env (detectPodmanHost env).2
        (if strTrim u == "" then (detectPodmanHost env).2.user else strTrim u) =
          (tr, some sub) := by
      unfold subidsStep
      split
      · exact ⟨_, _, rfl⟩
      · exact ⟨_, _, rfl⟩
    unfold runPodmanSetup runPodmanSetupRes
    simp only [introStep, sseq, userPromptStep, hresp, hc, hs, subuidPromptStep, hsubuid,
      List.append_assoc, List.nil_append]
    simp

/-- The cancelled-at-first-prompt environment for the C4 witness. -/
def c4Env : WEnv :=
  ⟨"linux", "alice", "/home/alice", fun _ _ => .fail "no", none, none, none, none, none⟩

/-- C4 witness: the theorem evaluated on the concrete environment whose
first prompt is cancelled. -/
theorem c4_cancel_stops_wizard_witness : Event.cancelled ∈ runPodmanSetup c4Env :=
  (c4_cancel_stops_wizard c4Env).2.1 rfl

/-- Meaning of the in-place `sed -i s/^user:.*/desired/ FILE` substitution
run by the edit path: every line starting with `user:` is replaced whole
by the desired line; all other lines are kept. (A model of the invoked sed
program — the mapping file itself is behind the shell oracle.) -/
def sedSubstitute (user desired : String) (lines : List String) : List String :=
  lines.map fun l => if (user ++ ":").data.isPrefixOf l.data then desired else l

/-- A string append's first character is the first of its nonempty head. -/
theorem string_append_head (a b : String) (c : Char) (h : a.data.head? = some c) :
    (a ++ b).data.head? = some c := by
  rw [String.data_append]
  cases ha : a.data with
  | nil => rw [ha] at h; cases h
  | cons x xs =>
    rw [ha] at h
    have hx : x = c := by injection h
    simp [hx]

/-- The sed edit argv is never the append argv (the shell texts start with
different characters). -/
theorem sedSubidArgs_ne_append (u d d2 f1 f2 : String) :
    sedSubidArgs u d f1 ≠ appendSubidArgs d2 f2 := by
  intro h
  have h3 : "sed -i 's/^" ++ u ++ ":.*/" ++ d ++ "/' " ++ f1
      = "echo '" ++ d2 ++ "' >> " ++ f2 := by
    simpa [sedSubidArgs, appendSubidArgs] using h
  have hL : ("sed -i 's/^" ++ u ++ ":.*/" ++ d ++ "/' " ++ f1).data.head? = some 's' :=
    string_append_head _ f1 's' (string_append_head _ _ 's'
      (string_append_head _ _ 's' (string_append_head _ _ 's' rfl)))
  have hR : ("echo '" ++ d2 ++ "' >> " ++ f2).data.head? = some 'e' :=
    string_append_head _ f2 'e' (string_append_head _ _ 'e' (string_append_head _ _ 'e' rfl))
  rw [h3, hR] at hL
  have : ('e' : Char) = 's' := by injection hL
  exact absurd this (by decide)

/-- C1: the subordinate-range apply, for UID and independently for GID.
With an existing line differing from the desired composed value
`user:start:count`, the mutation run is the in-place sed edit (first event
of the block) and never the append; with no existing line it is the append
and never the sed edit; with an existing line equal to the desired value
the block is exactly the "(unchanged)" notice, with no command run. The
sed substitution replaces exactly the lines carrying the `user:` prefix by
the desired line — which itself starts with `user:`, so the edited line's
user prefix is preserved. -/
theorem c1_subid_apply (env : WEnv) (user v : String) (hasU hasG : Bool)
    (ru rg : Option String) :
    (hasU = true → ru ≠ some (desiredSubidLine user v) →
      (subuidApplyBlock env user (desiredSubidLine user v) hasU ru).head? =
        some (Event.exec "sudo" (sedSubidArgs user (desiredSubidLine user v) "/etc/subuid"))
      ∧ Event.exec "sudo" (appendSubidArgs (desiredSubidLine user v) "/etc/subuid")
          ∉ subuidApplyBlock env user (desiredSubidLine user v) hasU ru)
    ∧ (hasU = false →
      (subuidApplyBlock env user (desiredSubidLine user v) hasU ru).head? =
        some (Event.exec "sudo" (appendSubidArgs (desiredSubidLine user v) "/etc/subuid"))
      ∧ Event.exec "sudo" (sedSubidArgs user (desiredSubidLine user v) "/etc/subuid")
          ∉ subuidApplyBlock env user (desiredSubidLine user v) hasU ru)
    ∧ (hasU = true → ru = some (desiredSubidLine user v) →
      subuidApplyBlock env user (desiredSubidLine user v) hasU ru =
        [Event.log ("subuid: " ++ desiredSubidLine user v ++ " (unchanged)")])
    ∧ (hasG = true → rg ≠ some (desiredSubidLine user v) →
      (subgidApplyBlock env user (desiredSubidLine user v) hasG rg).head? =
        some (Event.exec "sudo" (sedSubidArgs user (desiredSubidLine user v) "/etc/subgid"))
      ∧ Event.exec "sudo" (appendSubidArgs (desiredSubidLine user v) "/etc/subgid")
          ∉ subgidApplyBlock env user (desiredSubidLine user v) hasG rg)
    ∧ (hasG = false →
      (subgidApplyBlock env user (desiredSubidLine user v) hasG rg).head? =
        some (Event.exec "sudo" (appendSubidArgs (desiredSubidLine user v) "/etc/subgid"))
      ∧ Event.exec "sudo" (sedSubidArgs user (desiredSubidLine user v) "/etc/subgid")
          ∉ subgidApplyBlock env user (desiredSubidLine user v) hasG rg)
    ∧ (hasG = true → rg = some (desiredSubidLine user v) →
      subgidApplyBlock env user (desiredSubidLine user v) hasG rg =
        [Event.log ("subgid: " ++ desiredSubidLine user v ++ " (unchanged)")])
    ∧ (user ++ ":").data.isPrefixOf (desiredSubidLine user v).data = true
    ∧ (∀ (lines : List String) (i : Nat) (h1 : i < lines.length)
        (h2 : i < (sedSubstitute user (desiredSubidLine user v) lines).length),
      ((user ++ ":").data.isPrefixOf (lines.get ⟨i, h1⟩).data = true →
        (sedSubstitute user (desiredSubidLine user v) lines).get ⟨i, h2⟩ =
          desiredSubidLine user v)
      ∧ ((user ++ ":").data.isPrefixOf (lines.get ⟨i, h1⟩).data = false →
        (sedSubstitute user (desiredSubidLine user v) lines).get ⟨i, h2⟩ =
          lines.get ⟨i, h1⟩)) := by
  have hprefix : (user ++ ":").data.isPrefixOf (desiredSubidLine user v).data = true := by
    rw [List.isPrefixOf_iff_prefix]
    show (user ++ ":").data <+: (user ++ ":" ++ v).data
    rw [String.data_append]
    exact List.prefix_append _ _
  refine ⟨?_, ?_, ?_, ?_, ?_, ?_, hprefix, ?_⟩
  · intro hU hne
    have hb : (ru != some (desiredSubidLine user v)) = true := bne_iff_ne.mpr hne
    have hne2 := Ne.symm (sedSubidArgs_ne_append user (desiredSubidLine user v)
      (desiredSubidLine user v) "/etc/subuid" "/etc/subuid")
    subst hU
    unfold subuidApplyBlock subidMutate
    simp only [hb, Bool.not_true, Bool.false_or, if_true, if_pos]
    split <;> simp [hne2]
  · intro hU
    have hne2 := sedSubidArgs_ne_append user (desiredSubidLine user v)
      (desiredSubidLine user v) "/etc/subuid" "/etc/subuid"
    subst hU
    unfold subuidApplyBlock subidMutate
    simp only [Bool.not_false, Bool.true_or, if_true]
    split <;> simp [hne2]
  · intro hU heq
    subst hU
    unfold subuidApplyBlock
    simp [heq]
  · intro hG hne
    have hb : (rg != some (desiredSubidLine user v)) = true := bne_iff_ne.mpr hne
    have hne2 := Ne.symm (sedSubidArgs_ne_append user (desiredSubidLine user v)
      (desiredSubidLine user v) "/etc/subgid" "/etc/subgid")
    subst hG
    unfold subgidApplyBlock subidMutate
    simp only [hb, Bool.not_true, Bool.false_or, if_true, if_pos]
    split <;> simp [hne2]
  · intro hG
    have hne2 := sedSubidArgs_ne_append user (desiredSubidLine user v)
      (desiredSubidLine user v) "/etc/subgid" "/etc/subgid"
    subst hG
    unfold subgidApplyBlock subidMutate
    simp only [Bool.not_false, Bool.true_or, if_true]
    split <;> simp [hne2]
  · intro hG heq
    subst hG
    unfold subgidApplyBlock
    simp [heq]
  · intro lines i h1 h2
    constructor
    · intro hp
      simp only [List.get_eq_getElem] at hp ⊢
      simp only [sedSubstitute, List.getElem_map]
      rw [if_pos hp]
    · intro hp
      simp only [List.get_eq_getElem] at hp ⊢
      simp only [sedSubstitute, List.getElem_map]
      have hp2 : ¬((user ++ ":").data.isPrefixOf lines[i].data = true) := by
        rw [hp]; simp
      rw [if_neg hp2]

/-- Environment for the C1 witness (no command ever runs on the
"unchanged" path, so the oracle is irrelevant). -/
def c1Env : WEnv :=
  ⟨"linux", "alice", "/home/alice", fun _ _ => .fail "no", some "openclaw",
   some true, some "100000:65536", some "100000:65536", some false⟩

/-- C1 witness: with the existing line equal to the desired composed
value, the uid block is exactly the unchanged notice. -/
theorem c1_subid_apply_witness :
    subuidApplyBlock c1Env "openclaw" (desiredSubidLine "openclaw" "100000:65536") true
        (some "openclaw:100000:65536") =
      [Event.log "subuid: openclaw:100000:65536 (unchanged)"] :=
  (c1_subid_apply c1Env "openclaw" "100000:65536" true true
      (some "openclaw:100000:65536") (some "openclaw:100000:65536")).2.2.1 rfl rfl

/-- Environment for the C5 counterexample: Linux, every shell command
fails with "no", the operator picks the user "openclaw" (absent) and
confirms its creation. -/
def c5Env : WEnv :=
  ⟨"linux", "alice", "/home/alice", fun _ _ => .fail "no", some "openclaw",
   some true, some "100000:65536", some "100000:65536", some false⟩

/-- C5 counterexample: when the privileged user creation fails, the wizard
reports the error and an instruction to create the user manually and
re-run — no literal fallback command — and returns immediately: the trace
ends right there (no subordinate-range or Quadlet step ever runs), so the
wizard does not continue to the next step. -/
theorem c5_counterexample :
    runPodmanSetupRes c5Env =
      ([Event.exec "podman" ["version"],
        Event.exec "id" ["-u", "openclaw"],
        Event.exec "grep" ["^alice:", "/etc/subuid"],
        Event.exec "grep" ["^alice:", "/etc/subgid"],
        Event.exec "id" ["-u", "alice"],
        Event.exec "systemctl" ["--version"],
        Event.note ("Platform:  linux\nPodman:    not found\nUser:      alice (does not exist)\n"
          ++ "subuid:    not configured\nsubgid:    not configured") "Podman host detection",
        Event.log "Note: Podman is not installed on this system.\n  Install: https://podman.io/docs/installation",
        Event.exec "id" ["-u", "openclaw"],
        Event.exec "sudo" ["useradd", "-m", "-s", "/usr/sbin/nologin", "openclaw"],
        Event.error "Failed to create user: no",
        Event.log "Create the user manually and re-run this command."], none) := rfl

/-- C5 amended: how each host-mutation failure is handled. A
subordinate-range mutation failure is reported as an error plus the
literal manual fallback command, and the apply step always completes — on
Linux the gid block still runs after the uid block, and the step never
returns early. A user-creation failure is reported as an error plus a
manual-creation instruction (no literal command) and the wizard returns
immediately. A Quadlet reload/enable failure after the unit write is
reported with the literal manual reload/enable commands; a Quadlet failure
at or before the write (e.g. mkdir) is reported as a single error line
with no fallback command; in both cases the step completes. -/
theorem c5_mutation_failures :
    (∀ (env : WEnv) (cmd : List String) (label desired file msg : String),
      env.exec "sudo" cmd = .fail msg →
      subidMutate env cmd label desired file =
        [Event.exec "sudo" cmd,
         Event.error ("Failed to set " ++ label ++ ": " ++ msg),
         Event.log ("Set manually:\n  echo '" ++ desired ++ "' | sudo tee -a " ++ file)])
    ∧ (∀ (env : WEnv) (info : PodmanHostInfo) (u : String) (subids : Subids) (uv gv : String),
      (applySubidsStep env info u subids uv gv).2 = some ()
      ∧ ((info.platform == "linux") = true →
        (applySubidsStep env info u subids uv gv).1 =
          subuidApplyBlock env u (desiredSubidLine u uv) subids.hasSubuid subids.subuidRange
            ++ subgidApplyBlock env u (desiredSubidLine u gv) subids.hasSubgid subids.subgidRange))
    ∧ (∀ (env : WEnv) (u msg : String),
      env.createResp = some true →
      env.exec "sudo" ["useradd", "-m", "-s", "/usr/sbin/nologin", u] = .fail msg →
      userCreationCore env u false =
        ([Event.exec "sudo" ["useradd", "-m", "-s", "/usr/sbin/nologin", u],
          Event.error ("Failed to create user: " ++ msg),
          Event.log "Create the user manually and re-run this command."], none))
    ∧ (∀ (env : WEnv) (u : String),
      (userCreationStep env (detectPodmanHost env).2
          (if strTrim u == "" then (detectPodmanHost env).2.user else strTrim u)).2 = none →
      env.userResp = some u →
      runPodmanSetupRes env =
        ((introStep env).1
          ++ (userCreationStep env (detectPodmanHost env).2
              (if strTrim u == "" then (detectPodmanHost env).2.user else strTrim u)).1, none))
    ∧ (∀ (env : WEnv) (u homeDir msg : String),
      env.exec "sudo" (quadletReloadArgs u) = .fail msg →
      quadletReloadEnable env u homeDir =
        [Event.exec "sudo" (quadletReloadArgs u),
         Event.log (quadletManualMsg u (quadletPathFor homeDir))])
    ∧ (∀ (env : WEnv) (info : PodmanHostInfo) (u out msg : String),
      (info.platform == "linux" && info.systemdAvailable) = true →
      env.exec "bash" ["-c", "echo ~" ++ u] = .ok out →
      env.exec "sudo" ["-u", u, "mkdir", "-p", quadletDirFor (strTrim out)] = .fail msg →
      quadletInstallStep env info u true =
        ([Event.exec "bash" ["-c", "echo ~" ++ u],
          Event.exec "sudo" ["-u", u, "mkdir", "-p", quadletDirFor (strTrim out)],
          Event.error ("Failed to install Quadlet unit: " ++ msg)], some ())) := by
  refine ⟨?_, ?_, ?_, ?_, ?_, ?_⟩
  · intro env cmd label desired file msg hx
    simp [subidMutate, hx]
  · intro env info u subids uv gv
    constructor
    · unfold applySubidsStep
      split <;> rfl
    · intro hl
      simp [applySubidsStep, hl]
  · intro env u msg hc hx
    simp [userCreationCore, hc, hx]
  · intro env u hnone hresp
    rcases hc : userCreationStep env (detectPodmanHost env).2
        (if strTrim u == "" then (detectPodmanHost env).2.user else strTrim u) with ⟨ctr, co⟩
    rw [hc] at hnone
    simp only at hnone
    subst hnone
    unfold runPodmanSetupRes
    simp only [introStep, sseq, userPromptStep, hresp, hc, List.nil_append,
      List.append_assoc]
  · intro env u homeDir msg hx
    simp [quadletReloadEnable, hx]
  · intro env info u out msg hls hec hmk
    simp [quadletInstallStep, hls, hec, hmk]

/-- Environment for the C5 amended witness: every privileged command is
denied. -/
def c5WitnessEnv : WEnv :=
  ⟨"linux", "alice", "/home/alice", fun _ _ => .fail "denied", some "openclaw",
   some true, some "100000:65536", some "100000:65536", some false⟩

/-- C5 amended witness: a failed subordinate-range mutation yields the
error plus the literal manual fallback command. -/
theorem c5_mutation_failures_witness :
    subidMutate c5WitnessEnv (appendSubidArgs "openclaw:100000:65536" "/etc/subuid")
        "subuid" "openclaw:100000:65536" "/etc/subuid" =
      [Event.exec "sudo" (appendSubidArgs "openclaw:100000:65536" "/etc/subuid"),
       Event.error "Failed to set subuid: denied",
       Event.log "Set manually:\n  echo 'openclaw:100000:65536' | sudo tee -a /etc/subuid"] :=
  c5_mutation_failures.1 c5WitnessEnv (appendSubidArgs "openclaw:100000:65536" "/etc/subuid")
    "subuid" "openclaw:100000:65536" "/etc/subuid" "denied" rfl

/-! ## The `sandboxBackendCommand` entry point

Backend selection: `--json` dump, the non-interactive `--set` path
(validate, no-op check, availability warning, apply), or the interactive
selection. Collaborators are oracles in `CmdEnv`: the loaded configuration
snapshot, `resolveSandboxConfigForAgent(cfg, agentId).backend`,
`normalizeAgentId`, the availability probe's shell, the interactive select
response (`none` = the cancellation sentinel) and `stylePromptTitle`. -/

/-- Model of `String.toLowerCase` / `String.toLower` (the core library's
`toLower` is built on a partial auxiliary the kernel cannot evaluate). -/
def strToLower (s : String) : String := ⟨s.data.map Char.toLower⟩

/-- The valid backend identifiers (`VALID_BACKENDS`). -/
def VALID_BACKENDS : List String := ["docker", "podman"]

/-- The command's options. -/
structure CmdOpts where
  set : Option String
  agent : Option String
  json : Bool

/-- The command's collaborator oracles. -/
structure CmdEnv where
  cfg : Tree
  resolveBackend : Tree → Option String → String
  normalize : String → String
  availExec : String → List String → ExecOut
  selectResp : Option String
  styleTitle : String → Option String

/-- `JSON.stringify({ backend, agentId: agentId ?? null }, null, 2)`. -/
def jsonBackendDump (backend : String) (agentId : Option String) : String :=
  "\x7b\n  \"backend\": \"" ++ backend ++ "\",\n  \"agentId\": "
    ++ (match agentId with | some a => "\"" ++ a ++ "\"" | none => "null") ++ "\n\x7d"

/-- The error text of an invalid `--set` value, naming the offending value
and the valid set. -/
def invalidBackendMsg (setStr : String) : String :=
  "Invalid backend \"" ++ setStr ++ "\". Valid options: "
    ++ String.intercalate ", " VALID_BACKENDS

/-- `isBackendAvailable` within the command: the version probe's exec
event plus, on any failure, the advisory warning (availability never
blocks the write). -/
def availabilityEvents (cenv : CmdEnv) (backend : String) : List Event :=
  Event.exec backend ["version"] ::
    (match cenv.availExec backend ["version"] with
     | .ok _ => []
     | .fail _ =>
       [Event.log ("Warning: \"" ++ backend
          ++ "\" does not appear to be available on this system.")])

/-- The events of `applyBackend`: the config write of the patched tree and
the update notice; a strict-mode throw from the patch (malformed
configuration) propagates, and nothing is written. -/
def applyBackendEvents (normalize : String → String) (cfg : Tree) (agentId : Option String)
    (backend : String) : List Event :=
  match applyBackendFn normalize cfg agentId backend with
  | some t => [Event.writeConfig t, Event.configUpdated]
  | none => []

/-- The non-interactive `--set` flow: lowercase and validate the request
(error plus exit code 1 on an invalid value, no write), report an
already-effective backend as information (no write), otherwise probe
availability (advisory) and apply. -/
def setFlow (cenv : CmdEnv) (agentId : Option String) (currentBackend setStr : String) :
    List Event :=
  if !(VALID_BACKENDS.contains (strToLower setStr)) then
    [Event.error (invalidBackendMsg setStr), Event.exitCode 1]
  else if strToLower setStr == currentBackend then
    [Event.log ("Backend is already set to \"" ++ currentBackend ++ "\".")]
  else
    availabilityEvents cenv (strToLower setStr)
      ++ applyBackendEvents cenv.normalize cenv.cfg agentId (strToLower setStr)

/-- The interactive flow: intro and current-backend line, the select
(cancellable), the unchanged outro on a no-op selection (no write),
otherwise availability, apply, the Podman setup when switching to podman,
and the closing outro. -/
def interactiveFlow (cenv : CmdEnv) (wenv : WEnv) (agentId : Option String)
    (currentBackend : String) : List Event :=
  [Event.intro ((cenv.styleTitle "Sandbox backend").getD "Sandbox backend"),
   Event.log ("Current backend: " ++ currentBackend)]
  ++ match cenv.selectResp with
     | none => [Event.cancelled]
     | some selected =>
       if selected == currentBackend then
         [Event.outro ((cenv.styleTitle ("Backend unchanged (" ++ currentBackend ++ ").")).getD
            ("Backend unchanged (" ++ currentBackend ++ ")."))]
       else
         availabilityEvents cenv selected
           ++ applyBackendEvents cenv.normalize cenv.cfg agentId selected
           ++ (if selected == "podman" then Event.log "" :: runPodmanSetup wenv else [])
           ++ [Event.outro ((cenv.styleTitle ("Backend set to " ++ selected ++ ".")).getD
                ("Backend set to " ++ selected ++ "."))]

/-- `sandboxBackendCommand`: resolve the normalized agent id and the
current effective backend, then dispatch on `--json`, a truthy `--set`
value, or the interactive flow. -/
def sandboxBackendCommand (cenv : CmdEnv) (wenv : WEnv) (opts : CmdOpts) : List Event :=
  if opts.json then
    [Event.log (jsonBackendDump
      (cenv.resolveBackend cenv.cfg (opts.agent.map cenv.normalize))
      (opts.agent.map cenv.normalize))]
  else
    match opts.set with
    | some setStr =>
      if setStr == "" then
        interactiveFlow cenv wenv (opts.agent.map cenv.normalize)
          (cenv.resolveBackend cenv.cfg (opts.agent.map cenv.normalize))
      else
        setFlow cenv (opts.agent.map cenv.normalize)
          (cenv.resolveBackend cenv.cfg (opts.agent.map cenv.normalize)) setStr
    | none =>
      interactiveFlow cenv wenv (opts.agent.map cenv.normalize)
        (cenv.resolveBackend cenv.cfg (opts.agent.map cenv.normalize))

/-- C6: a non-interactive `--set` whose value does not case-insensitively
match a valid identifier yields exactly the error naming the offending
value and the valid set, plus exit code 1 — and no configuration write. -/
theorem c6_invalid_backend (cenv : CmdEnv) (wenv : WEnv) (opts : CmdOpts) (s : String)
    (hjson : opts.json = false) (hset : opts.set = some s) (hne : (s == "") = false)
    (hval : VALID_BACKENDS.contains (strToLower s) = false) :
    sandboxBackendCommand cenv wenv opts = [Event.error (invalidBackendMsg s), Event.exitCode 1]
    ∧ (∀ t, Event.writeConfig t ∉ sandboxBackendCommand cenv wenv opts)
    ∧ String.intercalate ", " VALID_BACKENDS = "docker, podman" := by
  have h1 : sandboxBackendCommand cenv wenv opts =
      [Event.error (invalidBackendMsg s), Event.exitCode 1] := by
    have hval2 : strToLower s ∉ VALID_BACKENDS := by simpa using hval
    simp [sandboxBackendCommand, hjson, hset, hne, setFlow, hval2]
  refine ⟨h1, ?_, rfl⟩
  intro t
  rw [h1]
  simp

/-- A wizard environment for the command witnesses (never reached on the
non-interactive paths exercised). -/
def cmdWitnessWEnv : WEnv :=
  ⟨"linux", "alice", "/home/alice", fun _ _ => .fail "no", none, none, none, none, none⟩

/-- Concrete environment for the C6 witness. -/
def c6Env : CmdEnv :=
  ⟨.obj [], fun _ _ => "docker", id, fun _ _ => .fail "no", none, fun _ => none⟩

/-- C6 witness: `--set kubernetes` errors naming "kubernetes", exits 1,
writes nothing. -/
theorem c6_invalid_backend_witness :
    sandboxBackendCommand c6Env cmdWitnessWEnv ⟨some "kubernetes", none, false⟩ =
      [Event.error "Invalid backend \"kubernetes\". Valid options: docker, podman",
       Event.exitCode 1] :=
  (c6_invalid_backend c6Env cmdWitnessWEnv ⟨some "kubernetes", none, false⟩ "kubernetes"
    rfl rfl rfl (by decide)).1

/-- C7: a request equal to the current effective backend never writes. On
the `--set` path the no-op is reported as a plain log line — no error, no
exit code, no write; on the interactive path the selection of the current
backend yields only the intro, the current-backend line and the unchanged
outro — again no write. -/
theorem c7_noop_selection_no_write (cenv : CmdEnv) (wenv : WEnv) (opts : CmdOpts) (s : String) :
    (opts.json = false → opts.set = some s → (s == "") = false →
     VALID_BACKENDS.contains (strToLower s) = true →
     strToLower s = cenv.resolveBackend cenv.cfg (opts.agent.map cenv.normalize) →
     sandboxBackendCommand cenv wenv opts =
       [Event.log ("Backend is already set to \""
          ++ cenv.resolveBackend cenv.cfg (opts.agent.map cenv.normalize) ++ "\".")]
     ∧ (∀ t, Event.writeConfig t ∉ sandboxBackendCommand cenv wenv opts)
     ∧ (∀ m, Event.error m ∉ sandboxBackendCommand cenv wenv opts)
     ∧ (∀ n, Event.exitCode n ∉ sandboxBackendCommand cenv wenv opts))
    ∧ (opts.json = false → opts.set = none →
     cenv.selectResp = some (cenv.resolveBackend cenv.cfg (opts.agent.map cenv.normalize)) →
     sandboxBackendCommand cenv wenv opts =
       [Event.intro ((cenv.styleTitle "Sandbox backend").getD "Sandbox backend"),
        Event.log ("Current backend: "
          ++ cenv.resolveBackend cenv.cfg (opts.agent.map cenv.normalize)),
        Event.outro ((cenv.styleTitle ("Backend unchanged ("
            ++ cenv.resolveBackend cenv.cfg (opts.agent.map cenv.normalize) ++ ").")).getD
          ("Backend unchanged ("
            ++ cenv.resolveBackend cenv.cfg (opts.agent.map cenv.normalize) ++ ")."))]
     ∧ (∀ t, Event.writeConfig t ∉ sandboxBackendCommand cenv wenv opts)) := by
  constructor
  · intro hjson hset hne hval heq
    have h1 : sandboxBackendCommand cenv wenv opts =
        [Event.log ("Backend is already set to \""
          ++ cenv.resolveBackend cenv.cfg (opts.agent.map cenv.normalize) ++ "\".")] := by
      have hval2 : strToLower s ∈ VALID_BACKENDS := by simpa using hval
      have hval3 := heq ▸ hval2
      simp [sandboxBackendCommand, hjson, hset, hne, setFlow, hval2, hval3, heq]
    refine ⟨h1, ?_, ?_, ?_⟩ <;> intro x <;> rw [h1] <;> simp
  · intro hjson hset hsel
    have h1 : sandboxBackendCommand cenv wenv opts =
        [Event.intro ((cenv.styleTitle "Sandbox backend").getD "Sandbox backend"),
         Event.log ("Current backend: "
           ++ cenv.resolveBackend cenv.cfg (opts.agent.map cenv.normalize)),
         Event.outro ((cenv.styleTitle ("Backend unchanged ("
             ++ cenv.resolveBackend cenv.cfg (opts.agent.map cenv.normalize) ++ ").")).getD
           ("Backend unchanged ("
             ++ cenv.resolveBackend cenv.cfg (opts.agent.map cenv.normalize) ++ ")."))] := by
      simp [sandboxBackendCommand, hjson, hset, interactiveFlow, hsel]
    refine ⟨h1, ?_⟩
    intro t
    rw [h1]
    simp

/-- Concrete environment for the C7 witness: selecting the effective
backend interactively. -/
def c7Env : CmdEnv :=
  ⟨.obj [], fun _ _ => "docker", id, fun _ _ => .fail "no", some "docker", fun _ => none⟩

/-- C7 witness: the no-op `--set DOCKER` (case-insensitive match of the
current backend) only logs and writes nothing. -/
theorem c7_noop_selection_no_write_witness :
    sandboxBackendCommand c7Env cmdWitnessWEnv ⟨some "DOCKER", none, false⟩ =
      [Event.log "Backend is already set to \"docker\"."] :=
  ((c7_noop_selection_no_write c7Env cmdWitnessWEnv ⟨some "DOCKER", none, false⟩ "DOCKER").1
    rfl rfl rfl (by decide) (by decide)).1

end OpenClaw
